/-
Verification of the interview-uploader queue/pipeline core.

This file shallowly embeds the JavaScript sources of the repository:
  * `src/services/file_manager.js` (naming service: `sanitizeFilename`,
    `generateFileName`) — the source appears in `src/unnamed/part_005`;
  * `src/services/video_compressor.js` (compression policy:
    `calculateOptimalBitrate`, `getCompressionStrategy`) and its
    transcription-optimized variant in `src/unnamed/part_006`;
  * `src/services/queue_manager.js` (`src/unnamed/part_004`): `addVideo`,
    `processQueue`, `processItem`, `retryOperation`;
  * `src/services/api_client.js` (`src/unnamed/part_002`):
    `getInterviewDetails` including the duplicate-recording guard.

JavaScript numbers are modelled as `ℚ` (exact rationals), machine-level
floating point being irrelevant to the verified properties.  External
collaborators (ffmpeg, Google Drive, YouTube, whisper, the REST record
store) are modelled as oracle parameters supplied in an `Env` record:
each oracle yields the value the collaborator's promise resolves with, or
the error message it rejects with.
-/
import Mathlib

namespace Uploader

/-! ## Naming service (`file_manager.js`, src/unnamed/part_005) -/

/-- The character class stripped by `sanitizeFilename`'s first replace,
`/[<>:"/\\|?*]/g` (file_manager.js line 124). -/
def isHostileChar (c : Char) : Bool :=
  c = '<' || c = '>' || c = ':' || c = '"' || c = '/' || c = '\\' ||
  c = '|' || c = '?' || c = '*'

/-- JavaScript's `\s` character class (ECMA-262 WhiteSpace ∪ LineTerminator):
ASCII whitespace, NBSP, the Unicode space separators, line/paragraph
separators and the BOM. -/
def isJsWhitespace (c : Char) : Bool :=
  c = ' ' || c = '\t' || c = '\n' || c = '\r' || c = '\x0b' || c = '\x0c' ||
  c = '\u00A0' || c = '\u1680' || ('\u2000' ≤ c && c ≤ '\u200A') ||
  c = '\u2028' || c = '\u2029' || c = '\u202F' || c = '\u205F' ||
  c = '\u3000' || c = '\uFEFF'

/-- One pass of `String.prototype.replace(/p+/g, r)` for a character class
`p` and a single replacement character `r`: every maximal run of
characters satisfying `p` is replaced by the single character `r`.
`inRun` records whether the previous character belonged to a run. -/
def collapseAux (p : Char → Bool) (r : Char) (inRun : Bool) : List Char → List Char
  | [] => []
  | c :: cs =>
    if p c then
      if inRun then collapseAux p r true cs
      else r :: collapseAux p r true cs
    else c :: collapseAux p r false cs

/-- Models `replace(/p+/g, String.mk [r])` on a character list. -/
def collapseRuns (p : Char → Bool) (r : Char) (l : List Char) : List Char :=
  collapseAux p r false l

/-- Models `replace(/&/g, 'and')` (file_manager.js line 127). -/
def replaceAmp : List Char → List Char
  | [] => []
  | c :: cs => if c = '&' then 'a' :: 'n' :: 'd' :: replaceAmp cs
               else c :: replaceAmp cs

/-- Source `sanitizeFilename` (file_manager.js lines 122–130): strip path-hostile
characters, collapse whitespace runs to `_`, strip apostrophes, map `&`
to `and`, collapse `_` runs, truncate to 200 UTF-16-ish units (modelled
as 200 characters). -/
def sanitizeFilename (name : String) : String :=
  let l1 := name.data.filter (fun c => !isHostileChar c)
  let l2 := collapseRuns isJsWhitespace '_' l1
  let l3 := l2.filter (fun c => c ≠ '\'')
  let l4 := replaceAmp l3
  let l5 := collapseRuns (fun c => c = '_') '_' l4
  String.mk (l5.take 200)

/-- The date normalization inside `generateFileName` (lines 138–145) for
the string case: `interviewDate.split('T')[0]`.  (The `Date`-object case
of the source cannot arise here since dates are modelled as strings.) -/
def formatInterviewDate (interviewDate : String) : String :=
  ((interviewDate.splitOn "T").headD interviewDate)

/-- Source `generateFileName` (file_manager.js lines 132–148). -/
def generateFileName (candidateName company interviewType interviewDate : String)
    (extension : String := ".mp4") : String :=
  let safeName := sanitizeFilename candidateName
  let safeCompany := sanitizeFilename company
  let safeType := sanitizeFilename (String.mk (collapseRuns isJsWhitespace '_' interviewType.data))
  let formattedDate := formatInterviewDate interviewDate
  safeName ++ "_" ++ safeCompany ++ "_" ++ safeType ++ "_" ++ formattedDate ++ extension

/-! ## Path helpers (Node's `path.basename` / `path.extname`) -/

/-- Node `path.basename`: the portion after the last `/`. -/
def pathBasename (p : String) : String :=
  ((p.splitOn "/").getLastD p)

/-- Node `path.extname`: from the last `.` of the basename to the end;
empty when the basename has no `.` or starts with its only `.`. -/
def pathExtname (p : String) : String :=
  let b := (pathBasename p).data
  match (b.reverse.findIdx? (fun c => c = '.')) with
  | none => ""
  | some revIdx =>
    let i := b.length - 1 - revIdx
    if i = 0 then "" else String.mk (b.drop i)

/-! ## Compression policy engine (`video_compressor.js`, two variants:
`src/services/video_compressor.js` and `src/unnamed/part_006`) -/

/-- The shape produced by `analyzeVideo` (video_compressor.js lines 17–29).
`videoBitrate`/`audioBitrate` come from `parseInt(...) || null`, so `none`
stands for JavaScript `null`; `videoCodec` is `undefined` (`none`) when no
video stream exists. -/
structure VideoInfo where
  duration : ℚ
  bitrate : ℕ
  size : ℕ
  videoCodec : Option String
  videoBitrate : Option ℕ
  width : ℕ
  height : ℕ
  fps : ℚ
  audioCodec : Option String
  audioBitrate : Option ℕ
  audioChannels : ℕ
deriving Repr, DecidableEq

/-- The strategy record built by `getCompressionStrategy`
(video_compressor.js lines 63–73). -/
structure Strategy where
  shouldCompress : Bool
  crf : ℕ
  preset : String
  audioBitrate : String
  targetReduction : ℕ
  reason : String
  twoPass : Bool
  maxrate : Option String
  bufsize : Option String
deriving Repr, DecidableEq

/-- Source `calculateOptimalBitrate` (video_compressor.js lines 35–52). -/
def calculateOptimalBitrate (width height : ℕ) (fps : ℚ) : ℚ :=
  let pixels := width * height
  let baseBitrate : ℚ :=
    if pixels ≥ 3840 * 2160 then 20000000
    else if pixels ≥ 1920 * 1080 then 8000000
    else if pixels ≥ 1280 * 720 then 5000000
    else 2500000
  if fps > 30 then baseBitrate * (fps / 30) else baseBitrate

/-- The local `currentEfficiency` as computed at video_compressor.js line 61:
`videoBitrate ? (videoBitrate / optimalBitrate) : 1`.  JavaScript
falsiness makes both `null` and `0` yield `1`. -/
def currentEfficiency (vi : VideoInfo) : ℚ :=
  match vi.videoBitrate with
  | none => 1
  | some 0 => 1
  | some b => (b : ℚ) / calculateOptimalBitrate vi.width vi.height vi.fps

/-- Source `getCompressionStrategy` (src/services/video_compressor.js
lines 54–156). -/
def getCompressionStrategy (sizeMB : ℚ) (vi : VideoInfo) : Strategy :=
  let resolution := vi.width * vi.height
  let isHighRes := resolution ≥ 1920 * 1080
  let is4K := resolution ≥ 3840 * 2160
  let eff := currentEfficiency vi
  let s : Strategy :=
    { shouldCompress := true, crf := 23, preset := "medium",
      audioBitrate := "128k", targetReduction := 30, reason := "",
      twoPass := false, maxrate := none, bufsize := none }
  let s :=
    if sizeMB < 100 then
      { s with shouldCompress := false,
               reason := "File too small, compression not beneficial" }
    else if sizeMB < 400 then
      if eff > 1.5 then
        { s with crf := 21, preset := "slow", targetReduction := 25,
                 reason := "Small file with optimization potential" }
      else
        { s with shouldCompress := false,
                 reason := "Small file already efficiently encoded" }
    else if sizeMB < 800 then
      { s with crf := if isHighRes then 22 else 23, preset := "medium",
               targetReduction := 20, audioBitrate := "128k",
               reason := "Medium file - balanced compression" }
    else if sizeMB < 1500 then
      { s with crf := if is4K then 21 else 22, preset := "slow",
               targetReduction := 25, audioBitrate := "160k",
               twoPass := is4K,
               reason := "Large file - quality-focused compression",
               maxrate := if is4K then some "20M"
                          else if isHighRes then some "8M" else none,
               bufsize := if is4K then some "40M"
                          else if isHighRes then some "16M" else none }
    else if sizeMB < 2500 then
      { s with crf := if is4K then 22 else 23, preset := "slow",
               targetReduction := 30,
               audioBitrate := if vi.audioBitrate.getD 0 > 192000 then "160k" else "128k",
               twoPass := true,
               reason := "Very large file - aggressive but quality-preserving compression",
               maxrate := if is4K then some "18M"
                          else if isHighRes then some "6M" else none,
               bufsize := if is4K then some "36M"
                          else if isHighRes then some "12M" else none }
    else
      { s with crf := if is4K then 23 else 24, preset := "slow",
               targetReduction := 35,
               audioBitrate := if vi.audioBitrate.getD 0 > 192000 then "160k" else "128k",
               twoPass := true,
               reason := "Extremely large file - maximum compression with quality preservation",
               maxrate := if is4K then some "16M"
                          else if isHighRes then some "5M" else none,
               bufsize := if is4K then some "32M"
                          else if isHighRes then some "10M" else none }
  let s :=
    if (match vi.audioBitrate with
        | some ab => decide (ab ≠ 0) && decide (ab < 128000)
        | none => false) then
      { s with audioBitrate := "copy" }
    else s
  if (vi.videoCodec = some "h264" ∨ vi.videoCodec = some "hevc") ∧ eff < 1.2 then
    { s with shouldCompress := false,
             reason := "Already efficiently encoded with modern codec" }
  else s

/-- Source `getCompressionStrategy` from the transcription-optimized variant
(`src/unnamed/part_006` lines 54–157): identical decision structure, with
`192k` audio targets and a `96000` copy floor. -/
def getCompressionStrategyT (sizeMB : ℚ) (vi : VideoInfo) : Strategy :=
  let resolution := vi.width * vi.height
  let isHighRes := resolution ≥ 1920 * 1080
  let is4K := resolution ≥ 3840 * 2160
  let eff := currentEfficiency vi
  let s : Strategy :=
    { shouldCompress := true, crf := 23, preset := "medium",
      audioBitrate := "128k", targetReduction := 30, reason := "",
      twoPass := false, maxrate := none, bufsize := none }
  let s :=
    if sizeMB < 100 then
      { s with shouldCompress := false,
               reason := "File too small, compression not beneficial" }
    else if sizeMB < 400 then
      if eff > 1.5 then
        { s with crf := 21, preset := "slow", targetReduction := 25,
                 reason := "Small file with optimization potential" }
      else
        { s with shouldCompress := false,
                 reason := "Small file already efficiently encoded" }
    else if sizeMB < 800 then
      { s with crf := if isHighRes then 22 else 23, preset := "medium",
               targetReduction := 20, audioBitrate := "192k",
               reason := "Medium file - balanced compression" }
    else if sizeMB < 1500 then
      { s with crf := if is4K then 21 else 22, preset := "slow",
               targetReduction := 25, audioBitrate := "192k",
               twoPass := is4K,
               reason := "Large file - quality-focused compression",
               maxrate := if is4K then some "20M"
                          else if isHighRes then some "8M" else none,
               bufsize := if is4K then some "40M"
                          else if isHighRes then some "16M" else none }
    else if sizeMB < 2500 then
      { s with crf := if is4K then 22 else 23, preset := "slow",
               targetReduction := 30, audioBitrate := "192k",
               twoPass := true,
               reason := "Very large file - aggressive but quality-preserving compression",
               maxrate := if is4K then some "18M"
                          else if isHighRes then some "6M" else none,
               bufsize := if is4K then some "36M"
                          else if isHighRes then some "12M" else none }
    else
      { s with crf := if is4K then 23 else 24, preset := "slow",
               targetReduction := 35, audioBitrate := "192k",
               twoPass := true,
               reason := "Extremely large file - maximum compression with quality preservation",
               maxrate := if is4K then some "16M"
                          else if isHighRes then some "5M" else none,
               bufsize := if is4K then some "32M"
                          else if isHighRes then some "10M" else none }
  let s :=
    if (match vi.audioBitrate with
        | some ab => decide (ab ≠ 0) && decide (ab < 96000)
        | none => false) then
      { s with audioBitrate := "copy" }
    else s
  if (vi.videoCodec = some "h264" ∨ vi.videoCodec = some "hevc") ∧ eff < 1.2 then
    { s with shouldCompress := false,
             reason := "Already efficiently encoded with modern codec" }
  else s

/-! ## Retry wrapper (`QueueManager.retryOperation`, queue_manager.js
lines 310–322)

The retried operation is modelled as a map from the 1-based attempt
number to the outcome of that invocation (`.ok` = the promise resolves,
`.error` = it rejects).  Alongside the final outcome we record the
observable event trace: each invocation and each fixed-delay wait. -/

/-- One observable event of `retryOperation`: an invocation of the wrapped
operation at a given attempt number with its outcome, or a fixed-delay
wait (`setTimeout` at line 319). -/
inductive RetryEvent (E A : Type) where
  | call (attempt : ℕ) (outcome : Except E A)
  | wait (ms : ℕ)

/-- The body of `retryOperation`'s `for` loop from attempt `attempt` up to
`maxRetries`: try the operation; on success return its value; on failure
rethrow if this was the last attempt, otherwise wait `delay` and retry.
Returns `none` when the loop exits without running (the JS function would
return `undefined`, which only happens for `maxRetries < attempt`). -/
def retryEvents (op : ℕ → Except E A) (maxRetries delay attempt : ℕ) :
    List (RetryEvent E A) × Option (Except E A) :=
  if _h : attempt ≤ maxRetries then
    match op attempt with
    | .ok a => ([.call attempt (.ok a)], some (.ok a))
    | .error e =>
      if attempt = maxRetries then
        ([.call attempt (.error e)], some (.error e))
      else
        let r := retryEvents op maxRetries delay (attempt + 1)
        (.call attempt (.error e) :: .wait delay :: r.1, r.2)
  else ([], none)
termination_by maxRetries + 1 - attempt
decreasing_by omega

/-- Source `retryOperation(fn, maxRetries = 3, delay = 10000)`
(queue_manager.js lines 310–322), starting at attempt 1. -/
def retryOperation (op : ℕ → Except E A) (maxRetries : ℕ := 3)
    (delay : ℕ := 10000) : List (RetryEvent E A) × Option (Except E A) :=
  retryEvents op maxRetries delay 1

/-- For `attempt ≤ maxRetries` the loop always produces an outcome. -/
theorem retryEvents_isSome (op : ℕ → Except E A) (maxRetries delay attempt : ℕ)
    (h : attempt ≤ maxRetries) :
    ((retryEvents op maxRetries delay attempt).2).isSome := by
  rw [retryEvents]
  rw [dif_pos h]
  match hop : op attempt with
  | .ok a => simp
  | .error e =>
    by_cases hlast : attempt = maxRetries
    · simp [hlast]
    · have : attempt + 1 ≤ maxRetries := by omega
      simpa [hlast] using retryEvents_isSome op maxRetries delay (attempt + 1) this
termination_by maxRetries + 1 - attempt
decreasing_by omega

/-- The result of `retryOperation` as observed by `processItem`'s callers
(always three attempts, 10 s delay). -/
def retryResult (op : ℕ → Except E A) : Except E A :=
  ((retryOperation op 3 10000).2).get
    (retryEvents_isSome op 3 10000 1 (by omega))

/-! ## Record store client (`api_client.js`, src/unnamed/part_002) -/

/-- JavaScript string truthiness for an optional string field: `null` /
`undefined` / `""` are falsy, everything else truthy. -/
def strTruthy : Option String → Bool
  | none => false
  | some s => !(s == "")

/-- The nested `candidate` object of the raw API payload. -/
structure Candidate where
  full_name : Option String
deriving Repr, DecidableEq

/-- The raw payload of `GET /api/interviews/{id}` as consumed by
`getInterviewDetails` (api_client.js lines 43–68). -/
structure InterviewData where
  id : ℕ
  candidate : Option Candidate
  candidate_name : Option String
  full_name : Option String
  company : String
  type_of_interview : String
  interview_date : String
  recording_link : Option String
  backup_recording_url : Option String
deriving Repr, DecidableEq

/-- The HTTP outcome of the details fetch: 404, another failing status
(with its `detail` message), or a 200 payload. -/
inductive ApiResponse where
  | notFound
  | httpError (detail : String)
  | ok (data : InterviewData)
deriving Repr, DecidableEq

/-- Candidate-name extraction (api_client.js lines 50–57):
`data.candidate && data.candidate.full_name`, then `data.candidate_name`,
then `data.full_name`, else `'Unknown'`. -/
def candidateNameOf (data : InterviewData) : String :=
  if strTruthy (data.candidate.bind Candidate.full_name) then
    (data.candidate.bind Candidate.full_name).getD "Unknown"
  else if strTruthy data.candidate_name then data.candidate_name.getD "Unknown"
  else if strTruthy data.full_name then data.full_name.getD "Unknown"
  else "Unknown"

/-- The transformed interview record built at api_client.js lines 60–68. -/
structure Interview where
  id : ℕ
  full_name : String
  company : String
  type_of_interview : String
  interview_date : String
  recording_link : Option String
  backup_recording_url : Option String
deriving Repr, DecidableEq

/-- JavaScript `String.prototype.trim()`: strip JS whitespace from both
ends (structural, unlike `String.trim`, so that concrete runs reduce). -/
def jsTrim (s : String) : String :=
  String.mk (((s.data.dropWhile isJsWhitespace).reverse.dropWhile
    isJsWhitespace).reverse)

/-- Models `x || 'N/A'` on an optional string. -/
def orNA (s : Option String) : String :=
  if strTruthy s then s.getD "N/A" else "N/A"

/-- Source `APIClient.getInterviewDetails` (api_client.js lines 21–91): `null` on
404, otherwise the transformed record — unless a recording link is
already present (truthy and not whitespace-only), in which case the
duplicate-prevention error is thrown (lines 72–82). -/
def getInterviewDetails (resp : ApiResponse) : Except String (Option Interview) :=
  match resp with
  | .notFound => .ok none
  | .httpError detail => .error detail
  | .ok data =>
    let interview : Interview :=
      { id := data.id
        full_name := candidateNameOf data
        company := data.company
        type_of_interview := data.type_of_interview
        interview_date := data.interview_date
        recording_link := data.recording_link
        backup_recording_url := data.backup_recording_url }
    if strTruthy interview.recording_link ∧
        jsTrim (interview.recording_link.getD "") ≠ "" then
      .error ("Recording already uploaded!\n\nGoogle Drive: " ++
        interview.recording_link.getD "" ++ "\nYouTube: " ++
        orNA interview.backup_recording_url)
    else .ok (some interview)

/-! ## Queue manager data model (`queue_manager.js`, src/unnamed/part_004) -/

/-- Job status strings of the queue manager
(`'waiting' | 'compressing' | 'uploading' | 'completed' | 'failed'`). -/
inductive Status where
  | waiting
  | compressing
  | uploading
  | completed
  | failed
deriving Repr, DecidableEq

/-- A queue entry, as constructed at queue_manager.js lines 62–78.
Timestamps (`Date.now()`) are modelled as natural-number ticks of a
monotone clock. -/
structure Job where
  id : ℕ
  originalFileName : String
  originalFilePath : String
  interviewId : ℕ
  candidateName : String
  company : String
  interviewType : String
  interviewDate : String
  finalFileName : String
  status : Status
  progress : ℚ
  currentStep : String
  error : Option String
  addedAt : ℕ
  completedAt : Option ℕ
deriving Repr, DecidableEq

/-- The queue manager's own mutable state: the job list and the
single-flight `processing` flag (lines 17–18). -/
structure QMState where
  queue : List Job
  processing : Bool
deriving Repr, DecidableEq

/-- The injected configuration (lines 23–25, 128–130). -/
structure Config where
  compressedStorage : String
  driveFolderId : Option String
deriving Repr, DecidableEq

/-- The resolution value of `compressVideo` as far as `processItem`
observes it (the result is only logged). -/
structure CompressionResult where
  skipped : Bool
deriving Repr, DecidableEq

/-- One call to `updateRecordingLinks(interviewId, driveLink, youtubeLink,
transcriptLink, finalFileName)` (line 288). -/
structure WriteBack where
  interviewId : ℕ
  driveLink : String
  youtubeLink : Option String
  transcriptLink : Option String
  filename : String
deriving Repr, DecidableEq

/-- Oracle environment for one `processItem` run: the outcome every
external collaborator produces when called.  Retried calls
(`driveUpload`, `youtubeUpload`, `transcriptUpload`) map the 1-based
attempt number to that attempt's outcome.  `compressProgress` /
`transcribeProgress` are the values the collaborators feed to the
progress callbacks before resolving (whisper reports `parseInt` results,
hence naturals). -/
structure Env where
  config : Option Config
  compressProgress : List ℚ
  compressResult : Except String CompressionResult
  driveUpload : ℕ → Except String String
  youtubeUpload : ℕ → Except String String
  whisperConfigured : Bool
  transcribeProgress : List ℕ
  transcribeResult : Except String Unit
  transcriptExists : Bool
  transcriptUpload : ℕ → Except String String
  updateLinks : Except String Unit

/-! ## `processItem` (queue_manager.js lines 119–308) -/

/-- The `catch` block of `processItem` (lines 301–307). -/
def failItem (item : Job) (msg : String) : Job :=
  { item with
    status := Status.failed
    error := some msg
    currentStep := "Failed: " ++ msg }

/-- The compression `onProgress` callback (lines 146–150):
`progress = Math.floor(p * 0.5)`, `currentStep = 'Compressing: ⌊p⌋%'`. -/
def compressCallback (item : Job) (p : ℚ) : Job :=
  { item with
    progress := ((⌊p * 0.5⌋ : ℤ) : ℚ)
    currentStep := "Compressing: " ++ toString ⌊p⌋ ++ "%" }

/-- Runs the compression progress callbacks for each reported value,
returning the final item and the snapshot taken after each callback. -/
def runCompressCallbacks : List ℚ → Job → Job × List Job
  | [], item => (item, [])
  | p :: ps, item =>
    let it := compressCallback item p
    let r := runCompressCallbacks ps it
    (r.1, it :: r.2)

/-- The transcription progress callback (lines 239–243):
`progress = 80 + p * 0.1` (not floored), `currentStep = 'Transcribing: p%'`. -/
def transcribeCallback (item : Job) (p : ℕ) : Job :=
  { item with
    progress := 80 + (p : ℚ) * 0.1
    currentStep := "Transcribing: " ++ toString p ++ "%" }

/-- Runs the transcription progress callbacks, with snapshots. -/
def runTranscribeCallbacks : List ℕ → Job → Job × List Job
  | [], item => (item, [])
  | p :: ps, item =>
    let it := transcribeCallback item p
    let r := runTranscribeCallbacks ps it
    (r.1, it :: r.2)

/-- The audio-only extension list (line 175). -/
def audioExtensions : List String :=
  [".mp3", ".wav", ".m4a", ".aac", ".flac", ".ogg"]

/-- Step 4's transcription block (lines 205–280).  When whisper is
configured, the whole block sits in its own `try`: a rejection of
`transcribeVideo`, a missing transcript file, or exhaustion of the
transcript-upload retries are all caught at line 274 and the pipeline
continues with `transcriptLink = null`.  (`initializeWhisper` resolves
with a success flag and never rejects — transcription.js lines 8–32.)
Returns the item after the block, the UI snapshots emitted inside it, and
the transcript link if one was produced. -/
def transcriptionStep (env : Env) (item : Job) : Job × List Job × Option String :=
  if env.whisperConfigured then
    let r := runTranscribeCallbacks env.transcribeProgress item
    match env.transcribeResult with
    | .error _ => (r.1, r.2, none)
    | .ok _ =>
      if !env.transcriptExists then (r.1, r.2, none)
      else
        let itemB := { r.1 with
          currentStep := "Uploading transcript to Drive...", progress := 90 }
        match retryResult env.transcriptUpload with
        | .error _ => (itemB, r.2 ++ [itemB], none)
        | .ok l => (itemB, r.2 ++ [itemB], some l)
  else (item, [], none)

/-- Steps 4–6 of `processItem` (lines 200–299): transcription (best
effort), the record-store write-back, deletion scheduling and the
terminal `completed` transition.  `now` is the `Date.now()` tick used for
`completedAt`. -/
def processFinal (env : Env) (now : ℕ) (item : Job) (driveLink : String)
    (youtubeLink : Option String) : Job × List Job × Option WriteBack :=
  let item4 := { item with currentStep := "Transcribing audio...", progress := 80 }
  let r := transcriptionStep env item4
  let tr4 := item4 :: r.2.1
  let item6 := { r.1 with currentStep := "Updating database...", progress := 95 }
  let tr5 := tr4 ++ [item6]
  let wb : WriteBack :=
    { interviewId := item6.interviewId, driveLink := driveLink,
      youtubeLink := youtubeLink, transcriptLink := r.2.2,
      filename := item6.finalFileName }
  match env.updateLinks with
  | .error e =>
    let j := failItem item6 e
    (j, tr5 ++ [j], some wb)
  | .ok _ =>
    let j := { item6 with
      status := Status.completed
      currentStep := "Completed"
      progress := 100
      completedAt := some now }
    (j, tr5 ++ [j], some wb)

/-- Source `QueueManager.processItem` (lines 119–308).  Returns the item in its
terminal state, the sequence of item snapshots at each `updateUI()` call
inside `processItem`, and the write-back call if step 5 was reached.
(`scheduleFileDeletion` touches only the persisted side table and is not
modelled.) -/
def processItem (env : Env) (now : ℕ) (item0 : Job) :
    Job × List Job × Option WriteBack :=
  match env.config with
  | none =>
    let j := failItem item0 "Configuration not set"
    (j, [j], none)
  | some cfg =>
    if cfg.compressedStorage = "" then
      let j := failItem item0 "Compressed storage path not configured"
      (j, [j], none)
    else
      -- Step 1: compress (lines 132–152)
      let item1 := { item0 with
        status := Status.compressing
        currentStep := "Compressing video..." }
      let rc := runCompressCallbacks env.compressProgress item1
      let tr1 := item1 :: rc.2
      match env.compressResult with
      | .error e =>
        let j := failItem rc.1 e
        (j, tr1 ++ [j], none)
      | .ok _ =>
        -- Step 2: upload compressed file to Google Drive (lines 157–172)
        let item3 := { rc.1 with
          status := Status.uploading
          currentStep := "Uploading to Google Drive (compressed)..."
          progress := 50 }
        let tr2 := tr1 ++ [item3]
        match retryResult env.driveUpload with
        | .error e =>
          let j := failItem item3 e
          (j, tr2 ++ [j], none)
        | .ok driveLink =>
          -- Step 3: YouTube upload, skipped for audio-only files (174–198)
          if audioExtensions.contains ((pathExtname item3.originalFilePath).toLower) then
            let item4 := { item3 with
              currentStep := "Skipping YouTube (audio-only file)...", progress := 75 }
            let r := processFinal env now item4 driveLink none
            (r.1, tr2 ++ item4 :: r.2.1, r.2.2)
          else
            let item4 := { item3 with
              currentStep := "Uploading to YouTube (original)...", progress := 75 }
            let tr3 := tr2 ++ [item4]
            match retryResult env.youtubeUpload with
            | .error e =>
              let j := failItem item4 e
              (j, tr3 ++ [j], none)
            | .ok ytLink =>
              let r := processFinal env now item4 driveLink (some ytLink)
              (r.1, tr3 ++ r.2.1, r.2.2)

/-! ## `processQueue` (queue_manager.js lines 101–117)

The loop `while (queue.some(waiting)) { nextItem = queue.find(waiting);
processItem(nextItem) }` rescans the queue from the front on every
iteration; `queue.find` is modelled by splitting the queue around its
first `waiting` element. -/

/-- Splits a queue as `pre ++ w :: post` where `w` is the first job with
status `waiting` (`queue.find(item => item.status === 'waiting')`,
line 105); `none` when no job is waiting. -/
def findWaitingSplit : List Job → Option (List Job × Job × List Job)
  | [] => none
  | j :: rest =>
    if j.status = Status.waiting then some ([], j, rest)
    else
      match findWaitingSplit rest with
      | none => none
      | some (pre, w, post) => some (j :: pre, w, post)

theorem findWaitingSplit_spec (q : List Job) (pre post : List Job) (w : Job)
    (h : findWaitingSplit q = some (pre, w, post)) :
    q = pre ++ w :: post ∧ w.status = Status.waiting ∧
      ∀ j ∈ pre, j.status ≠ Status.waiting := by
  induction q generalizing pre with
  | nil => simp [findWaitingSplit] at h
  | cons j rest ih =>
    by_cases hj : j.status = Status.waiting
    · simp [findWaitingSplit, hj] at h
      obtain ⟨h1, h2, h3⟩ := h
      subst h1; subst h2; subst h3
      exact ⟨rfl, hj, by simp⟩
    · simp only [findWaitingSplit, if_neg hj] at h
      match hr : findWaitingSplit rest with
      | none => rw [hr] at h; simp at h
      | some (pre1, w1, post1) =>
        rw [hr] at h
        simp at h
        obtain ⟨h1, h2, h3⟩ := h
        subst h1; subst h2; subst h3
        obtain ⟨e1, e2, e3⟩ := ih pre1 hr
        refine ⟨by rw [e1]; rfl, e2, ?_⟩
        intro x hx
        rcases List.mem_cons.mp hx with hx | hx
        · subst hx; exact hj
        · exact e3 x hx

theorem findWaitingSplit_none (q : List Job)
    (h : findWaitingSplit q = none) : ∀ j ∈ q, j.status ≠ Status.waiting := by
  induction q with
  | nil => simp
  | cons j rest ih =>
    by_cases hj : j.status = Status.waiting
    · simp [findWaitingSplit, hj] at h
    · simp only [findWaitingSplit, if_neg hj] at h
      match hr : findWaitingSplit rest with
      | none =>
        intro x hx
        rcases List.mem_cons.mp hx with hx | hx
        · subst hx; exact hj
        · exact ih hr x hx
      | some (pre1, w1, post1) => rw [hr] at h; simp at h

/-- Lemma: `processFinal` always leaves the job in a terminal state. -/
theorem processFinal_terminal (env : Env) (now : ℕ) (item : Job)
    (driveLink : String) (youtubeLink : Option String) :
    (processFinal env now item driveLink youtubeLink).1.status = Status.failed ∨
    (processFinal env now item driveLink youtubeLink).1.status = Status.completed := by
  unfold processFinal
  split
  · left; rfl
  · right; rfl

/-- Lemma: `processItem` always drives its job to `completed` or `failed`:
the success path ends at line 295 and every exception lands in the
`catch` at lines 301–307. -/
theorem processItem_terminal (env : Env) (now : ℕ) (item : Job) :
    (processItem env now item).1.status = Status.failed ∨
    (processItem env now item).1.status = Status.completed := by
  unfold processItem
  repeat' (first | split | dsimp only)
  all_goals first
    | (left; rfl)
    | (exact processFinal_terminal _ _ _ _ _)

/-- Number of `waiting` jobs in a queue. -/
def waitingCount (q : List Job) : ℕ :=
  q.countP (fun j => j.status == Status.waiting)

theorem waitingCount_replace_lt (pre post : List Job) (w w2 : Job)
    (hw : w.status = Status.waiting) (hw2 : w2.status ≠ Status.waiting) :
    waitingCount (pre ++ w2 :: post) < waitingCount (pre ++ w :: post) := by
  simp [waitingCount, List.countP_append, List.countP_cons, hw, hw2]

/-- The processing loop (lines 104–114): as long as some job is waiting,
take the first waiting job, run `processItem` on it, write its terminal
state back at the same position and rescan.  `envs k` supplies the
collaborator outcomes for the `k`-th processed job; `clock` is the
current `Date.now()` tick, advancing by one per processed job.  Returns
the final queue, the per-job snapshot traces, and all write-back calls in
order. -/
def processQueueGo (envs : ℕ → Env) (k clock : ℕ) (q : List Job) :
    List Job × List (List Job) × List WriteBack :=
  match hf : findWaitingSplit q with
  | none => (q, [], [])
  | some (pre, w, post) =>
    let r := processItem (envs k) clock w
    let rest := processQueueGo envs (k + 1) (clock + 1) (pre ++ r.1 :: post)
    (rest.1, r.2.1 :: rest.2.1, r.2.2.toList ++ rest.2.2)
termination_by waitingCount q
decreasing_by
  obtain ⟨hq, hw, -⟩ := findWaitingSplit_spec q pre post w hf
  subst hq
  refine waitingCount_replace_lt pre post w _ hw ?_
  rcases processItem_terminal (envs k) clock w with h | h <;> simp [h]

/-- Source `QueueManager.processQueue` (lines 101–117): sets the `processing`
flag, drains the queue, and clears the flag when no waiting job remains. -/
def processQueue (envs : ℕ → Env) (clock : ℕ) (st : QMState) :
    QMState × List (List Job) × List WriteBack :=
  let r := processQueueGo envs 0 clock st.queue
  ({ queue := r.1, processing := false }, r.2.1, r.2.2)

/-! ## `addVideo` (queue_manager.js lines 37–99) -/

/-- The result object of `addVideo`: `{success, error?}` (lines 94, 97). -/
structure AddResult where
  success : Bool
  error : Option String
deriving Repr, DecidableEq

/-- The queue item constructed at lines 62–78.  `freshId` models the
generated `uuidv4()`, `now` the `Date.now()` tick for `addedAt`. -/
def mkQueueItem (details : Interview) (filePath : String)
    (interviewId freshId now : ℕ) : Job :=
  { id := freshId
    originalFileName := pathBasename filePath
    originalFilePath := filePath
    interviewId := interviewId
    candidateName := details.full_name
    company := details.company
    interviewType := details.type_of_interview
    interviewDate := details.interview_date
    finalFileName := generateFileName details.full_name details.company
      details.type_of_interview details.interview_date (pathExtname filePath)
    status := Status.waiting
    progress := 0
    currentStep := "Waiting in queue"
    error := none
    addedAt := now
    completedAt := none }

/-- Source `QueueManager.addVideo` (lines 37–99): fetch the interview details
(`resp` is the record store's HTTP outcome for this id), fail fast when
the interview is missing or the duplicate guard fired, otherwise append a
`waiting` job.  The `processQueue` kick-off when `!processing`
(lines 87–92) is modelled by the small-step system below
(`QStep.startLoop`). -/
def addVideo (resp : ApiResponse) (filePath : String)
    (interviewId freshId now : ℕ) (st : QMState) : QMState × AddResult :=
  match getInterviewDetails resp with
  | .error msg => (st, { success := false, error := some msg })
  | .ok none =>
    (st, { success := false,
           error := some ("Interview ID " ++ toString interviewId ++
             " not found in database") })
  | .ok (some details) =>
    ({ st with
       queue := st.queue ++ [mkQueueItem details filePath interviewId freshId now] },
     { success := true, error := none })

/-! ## Small-step system: reachable states of the queue manager

`processQueue`/`processItem` suspend at every `await`; between two
suspension points the queue mutates in the synchronous chunks below.
`Ctl` is the processor's control point: `idle` (`processing === false`),
`scanning` (inside the `while` of `processQueue`, between jobs), or
`working i` (inside `processItem` on the job at queue index `i`).
`QStep.workStep` over-approximates the per-stage mutations of
`processItem` (lines 133–160, 183–203, 239–257, 283–285): each of them
rewrites only the picked item and keeps its status in
{`compressing`, `uploading`}.  `QStep.enqueue` is `addVideo`'s push of a
fresh `waiting` item (line 81), legal at any time because `addVideo` can
interleave with a running loop at any `await`. -/

/-- Processor control point. -/
inductive Ctl where
  | idle
  | scanning
  | working (i : ℕ)
deriving Repr, DecidableEq

/-- A system state: the queue plus the processor's control point.  The
`processing` flag of the source is `true` exactly in `scanning`/`working`
(set at line 102, cleared at line 116). -/
structure Sys where
  queue : List Job
  ctl : Ctl
deriving Repr, DecidableEq

/-- The two "active" statuses of the single-flight claim. -/
def isActive : Status → Bool
  | Status.compressing => true
  | Status.uploading => true
  | _ => false

/-- One atomic mutation of the queue manager's state. -/
inductive QStep : Sys → Sys → Prop where
  | enqueue (s : Sys) (j : Job) (hj : j.status = Status.waiting) :
      QStep s ⟨s.queue ++ [j], s.ctl⟩
  | startLoop (q : List Job) :
      QStep ⟨q, Ctl.idle⟩ ⟨q, Ctl.scanning⟩
  | pick (q pre post : List Job) (w : Job)
      (h : findWaitingSplit q = some (pre, w, post)) :
      QStep ⟨q, Ctl.scanning⟩ ⟨q, Ctl.working pre.length⟩
  | stopLoop (q : List Job) (h : findWaitingSplit q = none) :
      QStep ⟨q, Ctl.scanning⟩ ⟨q, Ctl.idle⟩
  | workStep (q : List Job) (i : ℕ) (j2 : Job) (hact : isActive j2.status) :
      QStep ⟨q, Ctl.working i⟩ ⟨q.set i j2, Ctl.working i⟩
  | finishItem (q : List Job) (i : ℕ) (j2 : Job)
      (hterm : j2.status = Status.completed ∨ j2.status = Status.failed) :
      QStep ⟨q, Ctl.working i⟩ ⟨q.set i j2, Ctl.scanning⟩

/-- The initial state: empty queue, flag clear (constructor, lines 16–21). -/
def initSys : Sys := ⟨[], Ctl.idle⟩

/-- States reachable from start-up. -/
def Reachable (s : Sys) : Prop := Relation.ReflTransGen QStep initSys s

/-- The inductive single-flight invariant: an active job can only sit at
the index the processor is currently working on. -/
def SingleFlight (s : Sys) : Prop :=
  ∀ k j, s.queue[k]? = some j → isActive j.status → s.ctl = Ctl.working k

theorem singleFlight_step (s s2 : Sys) (h : QStep s s2)
    (hs : SingleFlight s) : SingleFlight s2 := by
  cases h with
  | enqueue s j hj =>
    intro k jj hk hact
    simp only at hk ⊢
    by_cases hlt : k < s.queue.length
    · rw [List.getElem?_append_left hlt] at hk
      exact hs k jj hk hact
    · have hlen : k < s.queue.length + 1 := by
        have := (List.getElem?_eq_some.mp hk).1
        simpa using this
      have hkeq : k = s.queue.length := by omega
      subst hkeq
      have hjv : (s.queue ++ [j])[s.queue.length]? = some j := by simp
      have : j = jj := Option.some_inj.mp (hjv.symm.trans hk)
      subst this
      rw [hj] at hact
      simp [isActive] at hact
  | startLoop q =>
    intro k jj hk hact
    exact Ctl.noConfusion (hs k jj hk hact)
  | pick q pre post w hpick =>
    intro k jj hk hact
    exact Ctl.noConfusion (hs k jj hk hact)
  | stopLoop q hnone =>
    intro k jj hk hact
    exact Ctl.noConfusion (hs k jj hk hact)
  | workStep q i j2 hact2 =>
    intro k jj hk hact
    simp only at hk ⊢
    by_cases hik : k = i
    · subst hik; rfl
    · rw [List.getElem?_set_ne (by omega)] at hk
      exact hs k jj hk hact
  | finishItem q i j2 hterm =>
    intro k jj hk hact
    simp only at hk ⊢
    by_cases hik : k = i
    · subst hik
      have hklen : k < q.length := by
        have := (List.getElem?_eq_some.mp hk).1
        simpa using this
      have hv : (q.set k j2)[k]? = some j2 :=
        List.getElem?_set_eq_of_lt j2 hklen
      have : j2 = jj := Option.some_inj.mp (hv.symm.trans hk)
      subst this
      rcases hterm with h | h <;> rw [h] at hact <;> simp [isActive] at hact
    · rw [List.getElem?_set_ne (by omega)] at hk
      have h2 := hs k jj hk hact
      simp only [Ctl.working.injEq] at h2
      exact absurd h2.symm hik

theorem singleFlight_reachable (s : Sys) (h : Reachable s) : SingleFlight s := by
  induction h with
  | refl => intro k j hk hact; simp [initSys] at hk
  | tail hab hbc ih => exact singleFlight_step _ _ hbc ih

/-- A list whose satisfying elements all sit at one index has at most one
of them. -/
theorem filter_length_le_one (l : List Job) (p : Job → Bool)
    (h : ∀ i k a b, l.get? i = some a → l.get? k = some b → p a → p b → i = k) :
    (l.filter p).length ≤ 1 := by
  induction l with
  | nil => simp
  | cons x xs ih =>
    by_cases hx : p x
    · have hnil : xs.filter p = [] := by
        rw [List.filter_eq_nil_iff]
        intro a ha hpa
        obtain ⟨n, hn⟩ := List.get?_of_mem ha
        have := h 0 (n + 1) x a (by simp) (by simpa using hn) hx hpa
        omega
      simp [hx, hnil]
    · have ih2 := ih (fun i k a b hi hkk pa pb => by
        have := h (i + 1) (k + 1) a b (by simpa using hi) (by simpa using hkk) pa pb
        omega)
      simpa [hx] using ih2

/-! ## Lemmas about the sanitization pipeline (for the naming claims) -/

theorem mem_collapseAux (p : Char → Bool) (r : Char) (b : Bool)
    (l : List Char) (c : Char) (h : c ∈ collapseAux p r b l) :
    c = r ∨ (c ∈ l ∧ p c = false) := by
  induction l generalizing b with
  | nil => simp [collapseAux] at h
  | cons x xs ih =>
    by_cases hx : p x
    · cases b with
      | true =>
        simp only [collapseAux, if_pos hx, if_pos rfl] at h
        rcases ih true h with h | ⟨h1, h2⟩
        · exact Or.inl h
        · exact Or.inr ⟨List.mem_cons_of_mem x h1, h2⟩
      | false =>
        simp only [collapseAux, if_pos hx] at h
        rcases List.mem_cons.mp h with h | h
        · exact Or.inl h
        · rcases ih true h with h | ⟨h1, h2⟩
          · exact Or.inl h
          · exact Or.inr ⟨List.mem_cons_of_mem x h1, h2⟩
    · simp only [collapseAux, if_neg hx] at h
      rcases List.mem_cons.mp h with h | h
      · subst h; exact Or.inr ⟨List.mem_cons_self c xs, by simpa using hx⟩
      · rcases ih false h with h | ⟨h1, h2⟩
        · exact Or.inl h
        · exact Or.inr ⟨List.mem_cons_of_mem x h1, h2⟩

theorem mem_collapseRuns (p : Char → Bool) (r : Char) (l : List Char)
    (c : Char) (h : c ∈ collapseRuns p r l) :
    c = r ∨ (c ∈ l ∧ p c = false) :=
  mem_collapseAux p r false l c h

theorem replaceAmp_eq_flatMap (l : List Char) :
    replaceAmp l =
      l.flatMap (fun c => if c = '&' then ['a', 'n', 'd'] else [c]) := by
  induction l with
  | nil => rfl
  | cons x xs ih =>
    by_cases hx : x = '&' <;>
      simp [replaceAmp, hx, ih]

theorem mem_replaceAmp (l : List Char) (c : Char) (h : c ∈ replaceAmp l) :
    (c = 'a' ∨ c = 'n' ∨ c = 'd') ∨ (c ∈ l ∧ c ≠ '&') := by
  induction l with
  | nil => simp [replaceAmp] at h
  | cons x xs ih =>
    by_cases hx : x = '&'
    · simp only [replaceAmp, if_pos hx] at h
      rcases List.mem_cons.mp h with h | h
      · exact Or.inl (Or.inl h)
      rcases List.mem_cons.mp h with h | h
      · exact Or.inl (Or.inr (Or.inl h))
      rcases List.mem_cons.mp h with h | h
      · exact Or.inl (Or.inr (Or.inr h))
      · rcases ih h with h | ⟨h1, h2⟩
        · exact Or.inl h
        · exact Or.inr ⟨List.mem_cons_of_mem x h1, h2⟩
    · simp only [replaceAmp, if_neg hx] at h
      rcases List.mem_cons.mp h with h | h
      · subst h; exact Or.inr ⟨List.mem_cons_self c xs, hx⟩
      · rcases ih h with h | ⟨h1, h2⟩
        · exact Or.inl h
        · exact Or.inr ⟨List.mem_cons_of_mem x h1, h2⟩

theorem collapseAux_head_not (p : Char → Bool) (r : Char) (l : List Char)
    (c : Char) (h : (collapseAux p r true l).head? = some c) : p c = false := by
  induction l with
  | nil => simp [collapseAux] at h
  | cons x xs ih =>
    by_cases hx : p x
    · simp only [collapseAux, if_pos hx, if_pos rfl] at h
      exact ih h
    · simp only [collapseAux, if_neg hx, List.head?_cons, Option.some_inj] at h
      subst h; simpa using hx

theorem collapseAux_chain (p : Char → Bool) (r : Char) (b : Bool)
    (l : List Char) :
    List.Chain' (fun a c => ¬(p a = true ∧ p c = true)) (collapseAux p r b l) := by
  induction l generalizing b with
  | nil => simp [collapseAux]
  | cons x xs ih =>
    by_cases hx : p x
    · cases b with
      | true => simpa only [collapseAux, if_pos hx, if_pos rfl] using ih true
      | false =>
        have hrw : collapseAux p r false (x :: xs) = r :: collapseAux p r true xs := by
          simp [collapseAux, hx]
        rw [hrw, List.chain'_cons']
        refine ⟨?_, ih true⟩
        intro y hy hcontra
        have := collapseAux_head_not p r xs y hy
        rw [this] at hcontra
        exact Bool.noConfusion hcontra.2
    · have hrw : collapseAux p r b (x :: xs) = x :: collapseAux p r false xs := by
        simp [collapseAux, hx]
      rw [hrw, List.chain'_cons']
      refine ⟨?_, ih false⟩
      intro y hy hcontra
      exact hx hcontra.1

theorem sanitize_mem (s : String) (c : Char)
    (h : c ∈ (sanitizeFilename s).data) :
    isHostileChar c = false ∧ c ≠ '\'' ∧ c ≠ '&' ∧ isJsWhitespace c = false := by
  have h0 : c ∈ collapseRuns (fun c => c = '_') '_'
      (replaceAmp ((collapseRuns isJsWhitespace '_'
        (s.data.filter (fun c => !isHostileChar c))).filter (fun c => c ≠ '\''))) :=
    List.mem_of_mem_take (by simpa [sanitizeFilename] using h)
  rcases mem_collapseRuns _ _ _ _ h0 with hc | ⟨h4, hu⟩
  · subst hc; refine ⟨by decide, by decide, by decide, by decide⟩
  · rcases mem_replaceAmp _ _ h4 with hand | ⟨h3, hamp⟩
    · rcases hand with hc | hc | hc <;> subst hc <;>
        exact ⟨by decide, by decide, by decide, by decide⟩
    · obtain ⟨h2, hap⟩ := List.mem_filter.mp h3
      have hap2 : c ≠ '\'' := by simpa using hap
      rcases mem_collapseRuns _ _ _ _ h2 with hc | ⟨h1, hws⟩
      · subst hc; exact ⟨by decide, by decide, by decide, by decide⟩
      · obtain ⟨hin, hh⟩ := List.mem_filter.mp h1
        have hh2 : isHostileChar c = false := by simpa using hh
        exact ⟨hh2, hap2, hamp, hws⟩

theorem sanitize_chain (s : String) :
    List.Chain' (fun a b => ¬(a = '_' ∧ b = '_')) (sanitizeFilename s).data := by
  have hch := collapseAux_chain (fun c => decide (c = '_')) '_' false
    (replaceAmp ((collapseRuns isJsWhitespace '_'
      (s.data.filter (fun c => !isHostileChar c))).filter (fun c => c ≠ '\'')))
  have hch2 : List.Chain' (fun a b => ¬(a = '_' ∧ b = '_'))
      (collapseAux (fun c => decide (c = '_')) '_' false
        (replaceAmp ((collapseRuns isJsWhitespace '_'
          (s.data.filter (fun c => !isHostileChar c))).filter (fun c => c ≠ '\'')))) := by
    refine List.Chain'.imp ?_ hch
    intro a b hr hab
    exact hr (by simp [hab.1, hab.2])
  have := List.Chain'.take hch2 200
  simpa [sanitizeFilename, collapseRuns] using this

/-- C8 — Sanitization: every character of `sanitizeFilename`'s output is
neither one of the stripped path-hostile characters, nor an apostrophe,
nor an ampersand, nor whitespace; the output never contains two adjacent
underscores and is truncated to 200 characters; the ampersand stage maps
each `&` to the literal characters `and`; and `generateFileName` builds
the filename from the three sanitized free-text fields plus the
(unsanitized) date and extension. -/
theorem claim_C8_sanitization (s : String) :
    (∀ c ∈ (sanitizeFilename s).data,
        isHostileChar c = false ∧ c ≠ '\'' ∧ c ≠ '&' ∧ isJsWhitespace c = false) ∧
    (sanitizeFilename s).length ≤ 200 ∧
    List.Chain' (fun a b => ¬(a = '_' ∧ b = '_')) (sanitizeFilename s).data ∧
    (∀ l : List Char,
        replaceAmp l = l.flatMap (fun c => if c = '&' then ['a', 'n', 'd'] else [c])) ∧
    (∀ nm co ty da ext, generateFileName nm co ty da ext =
        sanitizeFilename nm ++ "_" ++ sanitizeFilename co ++ "_" ++
        sanitizeFilename (String.mk (collapseRuns isJsWhitespace '_' ty.data)) ++ "_" ++
        formatInterviewDate da ++ ext) := by
  refine ⟨fun c hc => sanitize_mem s c hc, ?_, sanitize_chain s,
    replaceAmp_eq_flatMap, fun nm co ty da ext => rfl⟩
  show (String.mk _).length ≤ 200
  simp only [String.length, String.mk]
  exact le_trans (List.length_take_le 200 _) (le_refl 200)

/-- Witness for C8 at a concrete hostile input. -/
theorem claim_C8_sanitization_witness :
    (sanitizeFilename "a&b<>:\"/\\|?*' x" ).length ≤ 200 ∧
    sanitizeFilename "a&b<>:\"/\\|?*' x" = "aandb_x" :=
  ⟨(claim_C8_sanitization "a&b<>:\"/\\|?*' x").2.1, by decide⟩

/-! ## Compression-policy claims -/

/-- The final override of `getCompressionStrategy` (lines 150–153 of both
variants) wins over every size tier. -/
theorem shouldCompress_false_of_modern (sizeMB : ℚ) (vi : VideoInfo)
    (hcodec : vi.videoCodec = some "h264" ∨ vi.videoCodec = some "hevc")
    (heff : currentEfficiency vi < 1.2) :
    (getCompressionStrategy sizeMB vi).shouldCompress = false ∧
    (getCompressionStrategyT sizeMB vi).shouldCompress = false := by
  constructor
  · unfold getCompressionStrategy
    dsimp only
    rw [if_pos ⟨hcodec, heff⟩]
  · unfold getCompressionStrategyT
    dsimp only
    rw [if_pos ⟨hcodec, heff⟩]

/-- C6 — Already-efficient skip: for every size tier and every video whose
codec is `h264` or `hevc` and whose current efficiency is below 1.2,
`getCompressionStrategy` (both source variants) returns
`shouldCompress = false`. -/
theorem claim_C6_already_efficient_skip (sizeMB : ℚ) (vi : VideoInfo)
    (hcodec : vi.videoCodec = some "h264" ∨ vi.videoCodec = some "hevc")
    (heff : currentEfficiency vi < 1.2) :
    (getCompressionStrategy sizeMB vi).shouldCompress = false ∧
    (getCompressionStrategyT sizeMB vi).shouldCompress = false :=
  shouldCompress_false_of_modern sizeMB vi hcodec heff

/-- Witness for C6: a 1000 MB 1080p30 h264 file at efficiency
8800000/8000000 = 1.1. -/
theorem claim_C6_already_efficient_skip_witness :
    (getCompressionStrategy 1000
        ⟨3600, 0, 0, some "h264", some 8800000, 1920, 1080, 30,
         some "aac", some 128000, 2⟩).shouldCompress = false ∧
    (getCompressionStrategyT 1000
        ⟨3600, 0, 0, some "h264", some 8800000, 1920, 1080, 30,
         some "aac", some 128000, 2⟩).shouldCompress = false :=
  claim_C6_already_efficient_skip 1000
    ⟨3600, 0, 0, some "h264", some 8800000, 1920, 1080, 30,
     some "aac", some 128000, 2⟩
    (Or.inl rfl)
    (by norm_num [currentEfficiency, calculateOptimalBitrate])

/-- C10 — Unknown bitrate defaults to efficient: a `null` (or `0`)
`videoBitrate` makes `currentEfficiency` exactly 1, so a modern-codec
file with unreported video bitrate is never re-compressed, for every
size. -/
theorem claim_C10_unknown_bitrate_defaults_efficient (sizeMB : ℚ) (vi : VideoInfo)
    (hbr : vi.videoBitrate = none ∨ vi.videoBitrate = some 0)
    (hcodec : vi.videoCodec = some "h264" ∨ vi.videoCodec = some "hevc") :
    currentEfficiency vi = 1 ∧
    (getCompressionStrategy sizeMB vi).shouldCompress = false ∧
    (getCompressionStrategyT sizeMB vi).shouldCompress = false := by
  have h1 : currentEfficiency vi = 1 := by
    rcases hbr with h | h <;> simp [currentEfficiency, h]
  obtain ⟨ha, hb⟩ := shouldCompress_false_of_modern sizeMB vi hcodec
    (by rw [h1]; norm_num)
  exact ⟨h1, ha, hb⟩

/-- Witness for C10: a 3000 MB 720p hevc file with `videoBitrate = null`. -/
theorem claim_C10_unknown_bitrate_defaults_efficient_witness :
    currentEfficiency ⟨3600, 0, 0, some "hevc", none, 1280, 720, 30,
      none, none, 0⟩ = 1 ∧
    (getCompressionStrategy 3000
        ⟨3600, 0, 0, some "hevc", none, 1280, 720, 30,
         none, none, 0⟩).shouldCompress = false ∧
    (getCompressionStrategyT 3000
        ⟨3600, 0, 0, some "hevc", none, 1280, 720, 30,
         none, none, 0⟩).shouldCompress = false :=
  claim_C10_unknown_bitrate_defaults_efficient 3000
    ⟨3600, 0, 0, some "hevc", none, 1280, 720, 30, none, none, 0⟩
    (Or.inl rfl) (Or.inr rfl)

/-! ## Retry-wrapper claims -/

/-- Number of invocations recorded in a retry trace. -/
def callCount (tr : List (RetryEvent E A)) : ℕ :=
  tr.countP (fun ev => match ev with
    | RetryEvent.call _ _ => true
    | RetryEvent.wait _ => false)

theorem retryEvents_success (op : ℕ → Except E A) (n d a k : ℕ) (v : A)
    (hak : a ≤ k) (hkn : k ≤ n)
    (hfail : ∀ i, a ≤ i → i < k → ∃ e, op i = Except.error e)
    (hok : op k = Except.ok v) :
    retryEvents op n d a =
      ((List.range' a (k - a)).flatMap
          (fun i => [RetryEvent.call i (op i), RetryEvent.wait d]) ++
        [RetryEvent.call k (Except.ok v)], some (Except.ok v)) := by
  rcases Nat.lt_or_ge a k with hlt | hge
  · obtain ⟨e, he⟩ := hfail a (le_refl a) hlt
    rw [retryEvents, dif_pos (by omega : a ≤ n)]
    simp only [he]
    have hne : a ≠ n := by omega
    rw [if_neg hne]
    have ih := retryEvents_success op n d (a + 1) k v (by omega) hkn
      (fun i h1 h2 => hfail i (by omega) h2) hok
    rw [ih]
    have hr : List.range' a (k - a) = a :: List.range' (a + 1) (k - (a + 1)) := by
      have h2 : k - a = (k - (a + 1)) + 1 := by omega
      rw [h2, List.range'_succ]
    rw [hr]
    simp [he]
  · have hae : a = k := by omega
    subst hae
    rw [retryEvents, dif_pos (by omega : a ≤ n)]
    simp only [hok]
    have h0 : a - a = 0 := by omega
    simp [h0]
termination_by k - a
decreasing_by omega

theorem retryEvents_exhaust (op : ℕ → Except E A) (n d a : ℕ)
    (han : a ≤ n)
    (hfail : ∀ i, a ≤ i → i ≤ n → ∃ e, op i = Except.error e) :
    retryEvents op n d a =
      ((List.range' a (n - a)).flatMap
          (fun i => [RetryEvent.call i (op i), RetryEvent.wait d]) ++
        [RetryEvent.call n (op n)], some (op n)) := by
  by_cases hcase : a = n
  · subst hcase
    obtain ⟨e, he⟩ := hfail a (le_refl a) (le_refl a)
    rw [retryEvents, dif_pos (le_refl a)]
    simp only [he]
    have h0 : a - a = 0 := by omega
    simp [h0, he]
  · obtain ⟨e, he⟩ := hfail a (le_refl a) han
    rw [retryEvents, dif_pos han]
    simp only [he]
    rw [if_neg hcase]
    have ih := retryEvents_exhaust op n d (a + 1) (by omega)
      (fun i h1 h2 => hfail i (by omega) h2)
    rw [ih]
    have hr : List.range' a (n - a) = a :: List.range' (a + 1) (n - (a + 1)) := by
      have h2 : n - a = (n - (a + 1)) + 1 := by omega
      rw [h2, List.range'_succ]
    rw [hr]
    simp [he]
termination_by n - a
decreasing_by omega

theorem retryEvents_callCount_le (op : ℕ → Except E A) (n d a : ℕ) :
    callCount (retryEvents op n d a).1 ≤ n + 1 - a := by
  rw [retryEvents]
  by_cases h : a ≤ n
  · rw [dif_pos h]
    rcases hop : op a with e | v
    · dsimp only
      by_cases hlast : a = n
      · simp [hlast, callCount]
      · rw [if_neg hlast]
        have ih := retryEvents_callCount_le op n d (a + 1)
        simp only [callCount, List.countP_cons] at ih ⊢
        simp at ih ⊢
        omega
    · dsimp only
      simp [callCount]
      omega
  · rw [dif_neg h]
    simp [callCount]
termination_by n + 1 - a
decreasing_by omega

/-- C5 — Retry wrapper contract: with `maxAttempts = n ≥ 1`,
`retryOperation` invokes the operation at most `n` times; if attempts
`1..k-1` fail and attempt `k ≤ n` succeeds, the trace is exactly calls
`1..k` with the fixed delay between consecutive attempts and the final
value is attempt `k`'s value; if all `n` attempts fail, the trace is
exactly calls `1..n` with a delay between consecutive attempts (none
after the last) and the wrapper rethrows the `n`-th attempt's error
unchanged. -/
theorem claim_C5_retry_contract (E A : Type) (op : ℕ → Except E A) (n d : ℕ)
    (hn : 1 ≤ n) :
    (callCount (retryOperation op n d).1 ≤ n) ∧
    (∀ k v, 1 ≤ k → k ≤ n →
      (∀ i, 1 ≤ i → i < k → ∃ e, op i = Except.error e) →
      op k = Except.ok v →
      retryOperation op n d =
        ((List.range' 1 (k - 1)).flatMap
            (fun i => [RetryEvent.call i (op i), RetryEvent.wait d]) ++
          [RetryEvent.call k (Except.ok v)], some (Except.ok v))) ∧
    ((∀ i, 1 ≤ i → i ≤ n → ∃ e, op i = Except.error e) →
      retryOperation op n d =
        ((List.range' 1 (n - 1)).flatMap
            (fun i => [RetryEvent.call i (op i), RetryEvent.wait d]) ++
          [RetryEvent.call n (op n)], some (op n))) := by
  refine ⟨?_, ?_, ?_⟩
  · have := retryEvents_callCount_le op n d 1
    simpa [retryOperation] using this
  · intro k v h1 h2 hfail hok
    exact retryEvents_success op n d 1 k v h1 h2 hfail hok
  · intro hfail
    exact retryEvents_exhaust op n d 1 hn hfail

/-- Witness for C5: an operation failing twice then succeeding, three
attempts, 7 ms delay. -/
theorem claim_C5_retry_contract_witness :
    retryOperation (fun i => if i = 1 then Except.error "a"
      else if i = 2 then Except.error "b" else Except.ok 42) 3 7 =
      ([RetryEvent.call 1 (Except.error "a"), RetryEvent.wait 7,
        RetryEvent.call 2 (Except.error "b"), RetryEvent.wait 7,
        RetryEvent.call 3 (Except.ok 42)], some (Except.ok 42)) := by
  have h := (claim_C5_retry_contract String ℕ
      (fun i => if i = 1 then Except.error "a"
        else if i = 2 then Except.error "b" else Except.ok 42) 3 7
      (by omega)).2.1 3 42 (by omega) (by omega)
      (by intro i h1 h2
          interval_cases i
          · exact ⟨"a", rfl⟩
          · exact ⟨"b", rfl⟩)
      rfl
  rw [h]
  rfl

/-! ## Facts about `retryResult` and successful/failing pipeline runs -/

theorem retryResult_ok (op : ℕ → Except E A) (v : A)
    (h : op 1 = Except.ok v) : retryResult op = Except.ok v := by
  unfold retryResult retryOperation
  have hs := retryEvents_success op 3 10000 1 1 v (le_refl 1) (by omega)
    (fun i h1 h2 => absurd h2 (by omega)) h
  simp [hs]

theorem retryResult_error (op : ℕ → Except E A)
    (h : ∀ i, 1 ≤ i → i ≤ 3 → ∃ e, op i = Except.error e) :
    retryResult op = op 3 := by
  unfold retryResult retryOperation
  have hx := retryEvents_exhaust op 3 10000 1 (by omega) h
  simp [hx]

/-- The collaborator outcomes a job needs in order to complete: a usable
configuration, a resolving compression, first-attempt successes of both
retried uploads, and a resolving record-store write-back.  (Transcription
is deliberately absent: it is best-effort.) -/
structure EnvOk (e : Env) : Prop where
  cfg : ∃ c, e.config = some c ∧ c.compressedStorage ≠ ""
  comp : ∃ r, e.compressResult = Except.ok r
  drive : ∃ s, e.driveUpload 1 = Except.ok s
  youtube : ∃ s, e.youtubeUpload 1 = Except.ok s
  upd : e.updateLinks = Except.ok ()

theorem processFinal_ok (env : Env) (now : ℕ) (item : Job) (dl : String)
    (yl : Option String) (hu : env.updateLinks = Except.ok ()) :
    (processFinal env now item dl yl).1.status = Status.completed ∧
    (processFinal env now item dl yl).1.completedAt = some now ∧
    (processFinal env now item dl yl).1.progress = 100 := by
  unfold processFinal
  try dsimp only
  rw [hu]
  exact ⟨rfl, rfl, rfl⟩

theorem processFinal_wb (env : Env) (now : ℕ) (item : Job) (dl : String)
    (yl : Option String) :
    (processFinal env now item dl yl).2.2 =
      some { interviewId := (transcriptionStep env
               { item with currentStep := "Transcribing audio...", progress := 80 }).1.interviewId,
             driveLink := dl, youtubeLink := yl,
             transcriptLink := (transcriptionStep env
               { item with currentStep := "Transcribing audio...", progress := 80 }).2.2,
             filename := (transcriptionStep env
               { item with currentStep := "Transcribing audio...", progress := 80 }).1.finalFileName } := by
  unfold processFinal
  try dsimp only
  split <;> rfl

/-- Under `EnvOk` every job completes, with `completedAt` stamped from the
clock, progress 100, and a write-back whose transcript link is whatever
the transcription block produced. -/
theorem processItem_ok_shape (env : Env) (now : ℕ) (item : Job)
    (h : EnvOk env) :
    (processItem env now item).1.status = Status.completed ∧
    (processItem env now item).1.completedAt = some now ∧
    (processItem env now item).1.progress = 100 ∧
    ∃ it4 wb, (processItem env now item).2.2 = some wb ∧
      wb.transcriptLink = (transcriptionStep env it4).2.2 := by
  obtain ⟨⟨c, hc, hcs⟩, ⟨r0, hr⟩, ⟨sd, hd⟩, ⟨sy, hy⟩, hu⟩ := h
  unfold processItem
  simp only [hc]
  try dsimp only
  rw [if_neg hcs]
  simp only [hr]
  try dsimp only
  simp only [retryResult_ok env.driveUpload sd hd]
  try dsimp only
  split
  · refine ⟨(processFinal_ok env now _ sd none hu).1,
      (processFinal_ok env now _ sd none hu).2.1,
      (processFinal_ok env now _ sd none hu).2.2, _, _,
      processFinal_wb env now _ sd none, rfl⟩
  · simp only [retryResult_ok env.youtubeUpload sy hy]
    try dsimp only
    refine ⟨(processFinal_ok env now _ sd (some sy) hu).1,
      (processFinal_ok env now _ sd (some sy) hu).2.1,
      (processFinal_ok env now _ sd (some sy) hu).2.2, _, _,
      processFinal_wb env now _ sd (some sy), rfl⟩

/-! ## Step equations for the processing loop -/

theorem processQueueGo_none (envs : ℕ → Env) (k clock : ℕ) (q : List Job)
    (h : findWaitingSplit q = none) :
    processQueueGo envs k clock q = (q, [], []) := by
  rw [processQueueGo]
  split
  · rfl
  · rename_i pre w post heq
    rw [h] at heq
    exact Option.noConfusion heq

theorem processQueueGo_some (envs : ℕ → Env) (k clock : ℕ) (q : List Job)
    (pre post : List Job) (w : Job)
    (h : findWaitingSplit q = some (pre, w, post)) :
    processQueueGo envs k clock q =
      ((processQueueGo envs (k + 1) (clock + 1)
          (pre ++ (processItem (envs k) clock w).1 :: post)).1,
       (processItem (envs k) clock w).2.1 ::
         (processQueueGo envs (k + 1) (clock + 1)
           (pre ++ (processItem (envs k) clock w).1 :: post)).2.1,
       (processItem (envs k) clock w).2.2.toList ++
         (processQueueGo envs (k + 1) (clock + 1)
           (pre ++ (processItem (envs k) clock w).1 :: post)).2.2) := by
  rw [processQueueGo]
  split
  · rename_i heq
    rw [h] at heq
    exact Option.noConfusion heq
  · rename_i pre2 w2 post2 heq
    rw [h] at heq
    injection heq with heq2
    injection heq2 with h1 h2
    injection h2 with h2 h3
    subst h1; subst h2; subst h3
    rfl

/-- When the loop exits, no job is left `waiting`. -/
theorem processQueueGo_no_waiting (envs : ℕ → Env) (k clock : ℕ)
    (q : List Job) :
    ∀ j ∈ (processQueueGo envs k clock q).1, j.status ≠ Status.waiting := by
  match hf : findWaitingSplit q with
  | none =>
    rw [processQueueGo_none envs k clock q hf]
    exact findWaitingSplit_none q hf
  | some (pre, w, post) =>
    rw [processQueueGo_some envs k clock q pre post w hf]
    have ih := processQueueGo_no_waiting envs (k + 1) (clock + 1)
      (pre ++ (processItem (envs k) clock w).1 :: post)
    exact ih
termination_by waitingCount q
decreasing_by
  obtain ⟨hq, hw, -⟩ := findWaitingSplit_spec q pre post w hf
  subst hq
  refine waitingCount_replace_lt pre post w _ hw ?_
  rcases processItem_terminal (envs k) clock w with h | h <;> simp [h]

/-! ## FIFO processing (queue-level claims) -/

/-- A configuration with a usable compressed-storage path (fixture). -/
def okConfig : Config := ⟨"/data/compressed", none⟩

/-- Collaborators that always succeed (fixture). -/
def envAllOk : Env :=
  ⟨some okConfig, [], Except.ok ⟨false⟩, fun _ => Except.ok "drive://x",
   fun _ => Except.ok "yt://x", false, [], Except.ok (), false,
   fun _ => Except.ok "t://x", Except.ok ()⟩

theorem envAllOk_ok : EnvOk envAllOk :=
  ⟨⟨okConfig, rfl, by decide⟩, ⟨⟨false⟩, rfl⟩, ⟨"drive://x", rfl⟩,
   ⟨"yt://x", rfl⟩, rfl⟩

/-- A freshly enqueued job (fixture). -/
def waitingJob (n : ℕ) : Job :=
  ⟨n, "a.mp4", "a.mp4", n, "Name", "Co", "Tech", "2024-01-01", "f.mp4",
   Status.waiting, 0, "Waiting in queue", none, 0, none⟩

/-- C2 — FIFO processing: three waiting jobs enqueued in order A, B, C and
collaborators that never fail are completed in queue order with monotone
`completedAt` stamps, and the loop ends with the `processing` flag
cleared and no `waiting` job left. -/
theorem claim_C2_fifo_processing (envs : ℕ → Env) (clock : ℕ)
    (jA jB jC : Job)
    (hA : jA.status = Status.waiting) (hB : jB.status = Status.waiting)
    (hC : jC.status = Status.waiting)
    (hok : ∀ k, EnvOk (envs k)) :
    ∃ qA qB qC,
      (processQueue envs clock ⟨[jA, jB, jC], false⟩).1.queue = [qA, qB, qC] ∧
      qA.status = Status.completed ∧ qB.status = Status.completed ∧
      qC.status = Status.completed ∧
      qA.completedAt = some clock ∧ qB.completedAt = some (clock + 1) ∧
      qC.completedAt = some (clock + 2) ∧
      (∀ tA tB tC, qA.completedAt = some tA → qB.completedAt = some tB →
        qC.completedAt = some tC → tA ≤ tB ∧ tB ≤ tC) ∧
      (processQueue envs clock ⟨[jA, jB, jC], false⟩).1.processing = false ∧
      ∀ j ∈ (processQueue envs clock ⟨[jA, jB, jC], false⟩).1.queue,
        j.status ≠ Status.waiting := by
  obtain ⟨hAs, hAc, hAp, -⟩ := processItem_ok_shape (envs 0) clock jA (hok 0)
  obtain ⟨hBs, hBc, hBp, -⟩ :=
    processItem_ok_shape (envs 1) (clock + 1) jB (hok 1)
  obtain ⟨hCs, hCc, hCp, -⟩ :=
    processItem_ok_shape (envs 2) (clock + 2) jC (hok 2)
  refine ⟨(processItem (envs 0) clock jA).1, (processItem (envs 1) (clock + 1) jB).1,
    (processItem (envs 2) (clock + 2) jC).1, ?_, hAs, hBs, hCs, hAc, hBc, hCc,
    ?_, rfl, ?_⟩
  · unfold processQueue
    try dsimp only
    rw [processQueueGo_some envs 0 clock _ [] [jB, jC] jA
      (by simp [findWaitingSplit, hA])]
    simp only [List.nil_append]
    rw [processQueueGo_some envs 1 (clock + 1) _
      [(processItem (envs 0) clock jA).1] [jC] jB
      (by simp [findWaitingSplit, hAs, hB])]
    simp only [List.cons_append, List.nil_append]
    rw [processQueueGo_some envs 2 (clock + 2) _
      [(processItem (envs 0) clock jA).1, (processItem (envs 1) (clock + 1) jB).1]
      [] jC (by simp [findWaitingSplit, hAs, hBs, hC])]
    simp only [List.cons_append, List.nil_append]
    rw [processQueueGo_none envs 3 (clock + 3) _
      (by simp [findWaitingSplit, hAs, hBs, hCs])]
  · intro tA tB tC h1 h2 h3
    rw [hAc] at h1; rw [hBc] at h2; rw [hCc] at h3
    injection h1 with h1; injection h2 with h2; injection h3 with h3
    omega
  · have := processQueueGo_no_waiting envs 0 clock [jA, jB, jC]
    intro j hj
    exact this j hj

/-- Witness for C2: three concrete waiting jobs, always-succeeding
collaborators, clock starting at 5. -/
theorem claim_C2_fifo_processing_witness :
    ∃ qA qB qC,
      (processQueue (fun _ => envAllOk) 5
        ⟨[waitingJob 1, waitingJob 2, waitingJob 3], false⟩).1.queue =
        [qA, qB, qC] ∧
      qA.completedAt = some 5 ∧ qB.completedAt = some 6 ∧
      qC.completedAt = some 7 := by
  obtain ⟨qA, qB, qC, h1, -, -, -, h5, h6, h7, -, -, -⟩ :=
    claim_C2_fifo_processing (fun _ => envAllOk) 5
      (waitingJob 1) (waitingJob 2) (waitingJob 3) rfl rfl rfl
      (fun _ => envAllOk_ok)
  exact ⟨qA, qB, qC, h1, h5, h6, h7⟩

/-! ## Failure isolation -/

/-- The compression progress callback only writes `progress` and
`currentStep`, so the fold preserves `completedAt` and
`originalFilePath`. -/
theorem runCompressCallbacks_preserves (ps : List ℚ) (item : Job) :
    (runCompressCallbacks ps item).1.completedAt = item.completedAt ∧
    (runCompressCallbacks ps item).1.originalFilePath = item.originalFilePath := by
  induction ps generalizing item with
  | nil => exact ⟨rfl, rfl⟩
  | cons p ps ih =>
    simp only [runCompressCallbacks]
    exact ih (compressCallback item p)

/-- The transcription progress callback preserves `completedAt`. -/
theorem runTranscribeCallbacks_completedAt (ps : List ℕ) (item : Job) :
    (runTranscribeCallbacks ps item).1.completedAt = item.completedAt := by
  induction ps generalizing item with
  | nil => rfl
  | cons p ps ih =>
    simp only [runTranscribeCallbacks]
    exact ih (transcribeCallback item p)

/-- The transcription block never touches `completedAt`. -/
theorem transcriptionStep_completedAt (env : Env) (item : Job) :
    (transcriptionStep env item).1.completedAt = item.completedAt := by
  have h1 := runTranscribeCallbacks_completedAt env.transcribeProgress item
  unfold transcriptionStep
  by_cases hw : env.whisperConfigured
  · simp only [hw, if_pos]
    match hr : env.transcribeResult with
    | Except.error m =>
      try dsimp only
      exact h1
    | Except.ok u =>
      try dsimp only
      by_cases hex : env.transcriptExists
      · rw [if_neg (by simp [hex])]
        match hu2 : retryResult env.transcriptUpload with
        | Except.error m =>
          try dsimp only
          exact h1
        | Except.ok l =>
          try dsimp only
          exact h1
      · have heq : env.transcriptExists = false := by simpa using hex
        rw [if_pos (by simp [heq])]
        exact h1
  · have heq : env.whisperConfigured = false := by simpa using hw
    rw [if_neg (by simp [heq])]

/-- When the record-store write-back rejects, `processFinal` fails the job
with that message, leaves `completedAt` as it was, and the write-back call
was still issued (it threw after being made, line 288). -/
theorem processFinal_upd_fail (env : Env) (now : ℕ) (item : Job)
    (dl : String) (yl : Option String) (m : String)
    (hu : env.updateLinks = Except.error m) :
    (processFinal env now item dl yl).1.status = Status.failed ∧
    (processFinal env now item dl yl).1.error = some m ∧
    (processFinal env now item dl yl).1.currentStep = "Failed: " ++ m ∧
    (processFinal env now item dl yl).1.completedAt = item.completedAt ∧
    ((processFinal env now item dl yl).2.2).isSome = true := by
  unfold processFinal
  try dsimp only
  rw [hu]
  refine ⟨rfl, rfl, rfl, ?_, rfl⟩
  exact transcriptionStep_completedAt env
    { item with currentStep := "Transcribing audio...", progress := 80 }

/-- Failure of the very first sub-step: no configuration injected
(queue_manager.js line 125). -/
theorem processItem_config_fail (env : Env) (now : ℕ) (item : Job)
    (h : env.config = none) :
    (processItem env now item).1.status = Status.failed ∧
    (processItem env now item).1.error = some "Configuration not set" ∧
    (processItem env now item).1.currentStep =
      "Failed: Configuration not set" ∧
    (processItem env now item).1.completedAt = item.completedAt ∧
    (processItem env now item).2.2 = none := by
  unfold processItem
  simp only [h]
  try dsimp only
  refine ⟨?_, ?_, ?_, ?_, ?_⟩ <;> first | rfl | trivial

/-- Failure of the storage-path check (queue_manager.js line 129). -/
theorem processItem_storage_fail (env : Env) (now : ℕ) (item : Job)
    (c : Config) (hc : env.config = some c)
    (hs : c.compressedStorage = "") :
    (processItem env now item).1.status = Status.failed ∧
    (processItem env now item).1.error =
      some "Compressed storage path not configured" ∧
    (processItem env now item).1.currentStep =
      "Failed: Compressed storage path not configured" ∧
    (processItem env now item).1.completedAt = item.completedAt ∧
    (processItem env now item).2.2 = none := by
  unfold processItem
  simp only [hc]
  try dsimp only
  rw [if_pos hs]
  refine ⟨?_, ?_, ?_, ?_, ?_⟩ <;> first | rfl | trivial

/-- When `compressVideo` rejects, the job fails with that message and no
upload or write-back ever runs. -/
theorem processItem_compress_fail (env : Env) (now : ℕ) (item : Job)
    (m : String)
    (hcfg : ∃ c, env.config = some c ∧ c.compressedStorage ≠ "")
    (hcomp : env.compressResult = Except.error m) :
    (processItem env now item).1.status = Status.failed ∧
    (processItem env now item).1.error = some m ∧
    (processItem env now item).1.currentStep = "Failed: " ++ m ∧
    (processItem env now item).1.completedAt = item.completedAt ∧
    (processItem env now item).2.2 = none := by
  obtain ⟨c, hc, hcs⟩ := hcfg
  unfold processItem
  simp only [hc]
  try dsimp only
  rw [if_neg hcs]
  simp only [hcomp]
  try dsimp only
  refine ⟨?_, ?_, ?_, ?_, ?_⟩ <;>
    first
      | rfl
      | trivial
      | exact (runCompressCallbacks_preserves env.compressProgress
          { item with status := Status.compressing, currentStep := "Compressing video..." }).1

/-- When every Google-Drive upload attempt rejects (and compression
succeeded), the job fails with the *last* attempt's message and the
pipeline never reaches the write-back. -/
theorem processItem_drive_fail (env : Env) (now : ℕ) (item : Job)
    (hcfg : ∃ c, env.config = some c ∧ c.compressedStorage ≠ "")
    (hcomp : ∃ r, env.compressResult = Except.ok r)
    (hdrv : ∀ i, 1 ≤ i → i ≤ 3 → ∃ e, env.driveUpload i = Except.error e) :
    ∃ e3, env.driveUpload 3 = Except.error e3 ∧
      (processItem env now item).1.status = Status.failed ∧
      (processItem env now item).1.error = some e3 ∧
      (processItem env now item).1.currentStep = "Failed: " ++ e3 ∧
      (processItem env now item).1.completedAt = item.completedAt ∧
      (processItem env now item).2.2 = none := by
  obtain ⟨c, hc, hcs⟩ := hcfg
  obtain ⟨r0, hr⟩ := hcomp
  obtain ⟨e3, he3⟩ := hdrv 3 (by omega) (by omega)
  have hrr : retryResult env.driveUpload = Except.error e3 := by
    rw [retryResult_error env.driveUpload hdrv, he3]
  refine ⟨e3, he3, ?_⟩
  unfold processItem
  simp only [hc]
  try dsimp only
  rw [if_neg hcs]
  simp only [hr]
  try dsimp only
  simp only [hrr]
  try dsimp only
  refine ⟨?_, ?_, ?_, ?_, ?_⟩ <;>
    first
      | rfl
      | trivial
      | exact (runCompressCallbacks_preserves env.compressProgress
          { item with status := Status.compressing, currentStep := "Compressing video..." }).1

/-- When every YouTube upload attempt rejects for a non-audio-only file
(earlier stages succeeding), the job fails with the *last* attempt's
message and no write-back is issued. -/
theorem processItem_youtube_fail (env : Env) (now : ℕ) (item : Job)
    (hcfg : ∃ c, env.config = some c ∧ c.compressedStorage ≠ "")
    (hcomp : ∃ r, env.compressResult = Except.ok r)
    (hdrive : ∃ s, env.driveUpload 1 = Except.ok s)
    (haudio : audioExtensions.contains
      ((pathExtname item.originalFilePath).toLower) = false)
    (hyt : ∀ i, 1 ≤ i → i ≤ 3 → ∃ e, env.youtubeUpload i = Except.error e) :
    ∃ e3, env.youtubeUpload 3 = Except.error e3 ∧
      (processItem env now item).1.status = Status.failed ∧
      (processItem env now item).1.error = some e3 ∧
      (processItem env now item).1.currentStep = "Failed: " ++ e3 ∧
      (processItem env now item).1.completedAt = item.completedAt ∧
      (processItem env now item).2.2 = none := by
  obtain ⟨c, hc, hcs⟩ := hcfg
  obtain ⟨r0, hr⟩ := hcomp
  obtain ⟨sd, hd⟩ := hdrive
  obtain ⟨e3, he3⟩ := hyt 3 (by omega) (by omega)
  have hrr : retryResult env.youtubeUpload = Except.error e3 := by
    rw [retryResult_error env.youtubeUpload hyt, he3]
  have hof := (runCompressCallbacks_preserves env.compressProgress
    { item with status := Status.compressing, currentStep := "Compressing video..." }).2
  have haudio2 : (pathExtname item.originalFilePath).toLower ∉ audioExtensions := by
    simpa using haudio
  refine ⟨e3, he3, ?_⟩
  unfold processItem
  simp only [hc]
  try dsimp only
  rw [if_neg hcs]
  simp only [hr]
  try dsimp only
  simp only [retryResult_ok env.driveUpload sd hd]
  try dsimp only
  rw [if_neg (by rw [hof]; simp [haudio2])]
  simp only [hrr]
  try dsimp only
  refine ⟨?_, ?_, ?_, ?_, ?_⟩ <;>
    first
      | rfl
      | trivial
      | exact (runCompressCallbacks_preserves env.compressProgress
          { item with status := Status.compressing, currentStep := "Compressing video..." }).1

/-- When the record-store write-back rejects (everything earlier
succeeding), the job fails with that message; the write-back call itself
was issued before throwing, and the completion stage never runs
(`completedAt` is untouched). -/
theorem processItem_writeback_fail (env : Env) (now : ℕ) (item : Job)
    (m : String)
    (hcfg : ∃ c, env.config = some c ∧ c.compressedStorage ≠ "")
    (hcomp : ∃ r, env.compressResult = Except.ok r)
    (hdrive : ∃ s, env.driveUpload 1 = Except.ok s)
    (hyt : ∃ s, env.youtubeUpload 1 = Except.ok s)
    (hupd : env.updateLinks = Except.error m) :
    (processItem env now item).1.status = Status.failed ∧
    (processItem env now item).1.error = some m ∧
    (processItem env now item).1.currentStep = "Failed: " ++ m ∧
    (processItem env now item).1.completedAt = item.completedAt ∧
    ((processItem env now item).2.2).isSome = true := by
  obtain ⟨c, hc, hcs⟩ := hcfg
  obtain ⟨r0, hr⟩ := hcomp
  obtain ⟨sd, hd⟩ := hdrive
  obtain ⟨sy, hy⟩ := hyt
  have hpres := (runCompressCallbacks_preserves env.compressProgress
    { item with status := Status.compressing, currentStep := "Compressing video..." }).1
  unfold processItem
  simp only [hc]
  try dsimp only
  rw [if_neg hcs]
  simp only [hr]
  try dsimp only
  simp only [retryResult_ok env.driveUpload sd hd]
  try dsimp only
  split
  · refine ⟨(processFinal_upd_fail env now _ sd none m hupd).1,
      (processFinal_upd_fail env now _ sd none m hupd).2.1,
      (processFinal_upd_fail env now _ sd none m hupd).2.2.1, ?_,
      (processFinal_upd_fail env now _ sd none m hupd).2.2.2.2⟩
    exact ((processFinal_upd_fail env now _ sd none m hupd).2.2.2.1).trans hpres
  · simp only [retryResult_ok env.youtubeUpload sy hy]
    try dsimp only
    refine ⟨(processFinal_upd_fail env now _ sd (some sy) m hupd).1,
      (processFinal_upd_fail env now _ sd (some sy) m hupd).2.1,
      (processFinal_upd_fail env now _ sd (some sy) m hupd).2.2.1, ?_,
      (processFinal_upd_fail env now _ sd (some sy) m hupd).2.2.2.2⟩
    exact ((processFinal_upd_fail env now _ sd (some sy) m hupd).2.2.2.1).trans hpres

/-- C3 — Failure isolation: (i) whichever sub-step of `processItem`
throws — the configuration checks, compression, the primary (Drive)
upload retries, the YouTube upload retries, or the record-store
write-back — the job transitions to `failed` with `error` carrying the
thrown message (for retried uploads, the *last* attempt's message),
`currentStep` set to the failure-describing `"Failed: <message>"`, and no
further stage runs for it: `completedAt` stays untouched and no
write-back call is issued for failures before step 5, while a write-back
failure happens after the call was issued; (ii) in a three-job queue
where only job B's upload collaborator fails, job A completes exactly as
it would in isolation (its final value is `processItem (envs 0)` of A
alone), B fails with the thrown message, and C is still processed to
`completed`; (iii) the loop always leaves no job `waiting`. -/
theorem claim_C3_failure_isolation :
    (∀ env now item, env.config = none →
      (processItem env now item).1.status = Status.failed ∧
      (processItem env now item).1.error = some "Configuration not set" ∧
      (processItem env now item).1.currentStep =
        "Failed: Configuration not set" ∧
      (processItem env now item).1.completedAt = item.completedAt ∧
      (processItem env now item).2.2 = none) ∧
    (∀ env now item c, env.config = some c → c.compressedStorage = "" →
      (processItem env now item).1.status = Status.failed ∧
      (processItem env now item).1.error =
        some "Compressed storage path not configured" ∧
      (processItem env now item).1.currentStep =
        "Failed: Compressed storage path not configured" ∧
      (processItem env now item).1.completedAt = item.completedAt ∧
      (processItem env now item).2.2 = none) ∧
    (∀ env now item m,
      (∃ c, env.config = some c ∧ c.compressedStorage ≠ "") →
      env.compressResult = Except.error m →
      (processItem env now item).1.status = Status.failed ∧
      (processItem env now item).1.error = some m ∧
      (processItem env now item).1.currentStep = "Failed: " ++ m ∧
      (processItem env now item).1.completedAt = item.completedAt ∧
      (processItem env now item).2.2 = none) ∧
    (∀ env now item,
      (∃ c, env.config = some c ∧ c.compressedStorage ≠ "") →
      (∃ r, env.compressResult = Except.ok r) →
      (∀ i, 1 ≤ i → i ≤ 3 → ∃ e, env.driveUpload i = Except.error e) →
      ∃ e3, env.driveUpload 3 = Except.error e3 ∧
        (processItem env now item).1.status = Status.failed ∧
        (processItem env now item).1.error = some e3 ∧
        (processItem env now item).1.currentStep = "Failed: " ++ e3 ∧
        (processItem env now item).1.completedAt = item.completedAt ∧
        (processItem env now item).2.2 = none) ∧
    (∀ env now item,
      (∃ c, env.config = some c ∧ c.compressedStorage ≠ "") →
      (∃ r, env.compressResult = Except.ok r) →
      (∃ s, env.driveUpload 1 = Except.ok s) →
      audioExtensions.contains
        ((pathExtname item.originalFilePath).toLower) = false →
      (∀ i, 1 ≤ i → i ≤ 3 → ∃ e, env.youtubeUpload i = Except.error e) →
      ∃ e3, env.youtubeUpload 3 = Except.error e3 ∧
        (processItem env now item).1.status = Status.failed ∧
        (processItem env now item).1.error = some e3 ∧
        (processItem env now item).1.currentStep = "Failed: " ++ e3 ∧
        (processItem env now item).1.completedAt = item.completedAt ∧
        (processItem env now item).2.2 = none) ∧
    (∀ env now item m,
      (∃ c, env.config = some c ∧ c.compressedStorage ≠ "") →
      (∃ r, env.compressResult = Except.ok r) →
      (∃ s, env.driveUpload 1 = Except.ok s) →
      (∃ s, env.youtubeUpload 1 = Except.ok s) →
      env.updateLinks = Except.error m →
      (processItem env now item).1.status = Status.failed ∧
      (processItem env now item).1.error = some m ∧
      (processItem env now item).1.currentStep = "Failed: " ++ m ∧
      (processItem env now item).1.completedAt = item.completedAt ∧
      ((processItem env now item).2.2).isSome = true) ∧
    (∀ envs clock jA jB jC,
      jA.status = Status.waiting → jB.status = Status.waiting →
      jC.status = Status.waiting →
      EnvOk (envs 0) → EnvOk (envs 2) →
      (∃ c, (envs 1).config = some c ∧ c.compressedStorage ≠ "") →
      (∃ r, (envs 1).compressResult = Except.ok r) →
      (∀ i, 1 ≤ i → i ≤ 3 → ∃ e, (envs 1).driveUpload i = Except.error e) →
      ∃ qB,
        (processQueue envs clock ⟨[jA, jB, jC], false⟩).1.queue =
          [(processItem (envs 0) clock jA).1, qB,
           (processItem (envs 2) (clock + 2) jC).1] ∧
        (processItem (envs 0) clock jA).1.status = Status.completed ∧
        (processItem (envs 0) clock jA).1.completedAt = some clock ∧
        qB.status = Status.failed ∧
        (∃ e3, (envs 1).driveUpload 3 = Except.error e3 ∧
          qB.error = some e3) ∧
        (processItem (envs 2) (clock + 2) jC).1.status = Status.completed) ∧
    (∀ envs k clock q, ∀ j ∈ (processQueueGo envs k clock q).1,
      j.status ≠ Status.waiting) := by
  refine ⟨processItem_config_fail, processItem_storage_fail,
    processItem_compress_fail, processItem_drive_fail,
    processItem_youtube_fail, processItem_writeback_fail, ?_,
    processQueueGo_no_waiting⟩
  intro envs clock jA jB jC hA hB hC h0 h2 hcfg1 hcomp1 hdrv1
  obtain ⟨hAs, hAc, hAp, -⟩ := processItem_ok_shape (envs 0) clock jA h0
  obtain ⟨e3, he3, hBs, hBe, hBcs, hBca, hBwb⟩ :=
    processItem_drive_fail (envs 1) (clock + 1) jB hcfg1 hcomp1 hdrv1
  obtain ⟨hCs, hCc, hCp, -⟩ :=
    processItem_ok_shape (envs 2) (clock + 2) jC h2
  refine ⟨(processItem (envs 1) (clock + 1) jB).1, ?_, hAs, hAc, hBs,
    ⟨e3, he3, hBe⟩, hCs⟩
  unfold processQueue
  try dsimp only
  rw [processQueueGo_some envs 0 clock _ [] [jB, jC] jA
    (by simp [findWaitingSplit, hA])]
  simp only [List.nil_append]
  rw [processQueueGo_some envs 1 (clock + 1) _
    [(processItem (envs 0) clock jA).1] [jC] jB
    (by simp [findWaitingSplit, hAs, hB])]
  simp only [List.cons_append, List.nil_append]
  rw [processQueueGo_some envs 2 (clock + 2) _
    [(processItem (envs 0) clock jA).1, (processItem (envs 1) (clock + 1) jB).1]
    [] jC (by simp [findWaitingSplit, hAs, hBs, hC])]
  simp only [List.cons_append, List.nil_append]
  rw [processQueueGo_none envs 3 (clock + 3) _
    (by simp [findWaitingSplit, hAs, hBs, hCs])]

/-- Collaborators whose Google-Drive upload always rejects (fixture). -/
def envDriveFail : Env :=
  ⟨some okConfig, [], Except.ok ⟨false⟩, fun _ => Except.error "drive down",
   fun _ => Except.ok "yt://x", false, [], Except.ok (), false,
   fun _ => Except.ok "t://x", Except.ok ()⟩

/-- Collaborators where the record-store write-back always rejects
(fixture). -/
def envUpdFail : Env :=
  ⟨some okConfig, [], Except.ok ⟨false⟩, fun _ => Except.ok "drive://x",
   fun _ => Except.ok "yt://x", false, [], Except.ok (), false,
   fun _ => Except.ok "t://x", Except.error "db down"⟩

/-- Witness for C3: job B's upload collaborator always throws
`"drive down"` — A and C complete, B fails with that message — and a
job whose write-back collaborator throws `"db down"` fails with that
message after the write-back call was issued. -/
theorem claim_C3_failure_isolation_witness :
    (∃ qB,
      (processQueue (fun k => if k = 1 then envDriveFail else envAllOk) 5
        ⟨[waitingJob 1, waitingJob 2, waitingJob 3], false⟩).1.queue =
        [(processItem envAllOk 5 (waitingJob 1)).1, qB,
         (processItem envAllOk 7 (waitingJob 3)).1] ∧
      qB.status = Status.failed ∧ qB.error = some "drive down") ∧
    (processItem envUpdFail 9 (waitingJob 1)).1.status = Status.failed ∧
    (processItem envUpdFail 9 (waitingJob 1)).1.error = some "db down" ∧
    ((processItem envUpdFail 9 (waitingJob 1)).2.2).isSome = true := by
  obtain ⟨qB, h1, -, -, h4, ⟨e3, he3, h5⟩, -⟩ :=
    (claim_C3_failure_isolation).2.2.2.2.2.2.1
      (fun k => if k = 1 then envDriveFail else envAllOk) 5
      (waitingJob 1) (waitingJob 2) (waitingJob 3) rfl rfl rfl
      envAllOk_ok envAllOk_ok
      ⟨okConfig, rfl, by decide⟩ ⟨⟨false⟩, rfl⟩
      (fun i h1 h2 => ⟨"drive down", rfl⟩)
  obtain ⟨w1, w2, -, -, w5⟩ :=
    (claim_C3_failure_isolation).2.2.2.2.2.1 envUpdFail 9 (waitingJob 1)
      "db down" ⟨okConfig, rfl, by decide⟩ ⟨⟨false⟩, rfl⟩
      ⟨"drive://x", rfl⟩ ⟨"yt://x", rfl⟩ rfl
  have he3v : e3 = "drive down" := by
    have h : (Except.error "drive down" : Except String String) =
        Except.error e3 := he3
    injection h with hv
    exact hv.symm
  refine ⟨⟨qB, h1, h4, ?_⟩, w1, w2, w5⟩
  rw [h5, he3v]

/-! ## Transcription is best-effort -/

/-- If whisper is configured but transcription rejects, or the transcript
upload exhausts its retries, the `catch` at line 274 swallows the error
and no transcript link is produced. -/
theorem transcriptionStep_fail_link (env : Env) (item : Job)
    (hw : env.whisperConfigured = true)
    (hfail : (∃ m, env.transcribeResult = Except.error m) ∨
      (env.transcribeResult = Except.ok () ∧ env.transcriptExists = true ∧
       ∀ i, 1 ≤ i → i ≤ 3 → ∃ m, env.transcriptUpload i = Except.error m)) :
    (transcriptionStep env item).2.2 = none := by
  unfold transcriptionStep
  simp only [hw, if_pos]
  rcases hfail with ⟨m, hm⟩ | ⟨hok2, hex, hup⟩
  · simp only [hm]
  · obtain ⟨m3, hm3⟩ := hup 3 (by omega) (by omega)
    have hrr : retryResult env.transcriptUpload = Except.error m3 := by
      rw [retryResult_error env.transcriptUpload hup, hm3]
    simp only [hok2, hex, hrr]
    try dsimp only
    split <;> rfl

/-- C7 — Transcription best-effort: when transcription is configured but
the transcription call (or the transcript upload) throws, the job still
reaches `completed` with progress 100 and the record-store write-back is
issued with `transcriptLink = null`. -/
theorem claim_C7_transcription_best_effort (env : Env) (now : ℕ) (item : Job)
    (hok : EnvOk env) (hw : env.whisperConfigured = true)
    (hfail : (∃ m, env.transcribeResult = Except.error m) ∨
      (env.transcribeResult = Except.ok () ∧ env.transcriptExists = true ∧
       ∀ i, 1 ≤ i → i ≤ 3 → ∃ m, env.transcriptUpload i = Except.error m)) :
    (processItem env now item).1.status = Status.completed ∧
    (processItem env now item).1.progress = 100 ∧
    ∃ wb, (processItem env now item).2.2 = some wb ∧
      wb.transcriptLink = none := by
  obtain ⟨hs, hc, hp, it4, wb, hwb, htl⟩ := processItem_ok_shape env now item hok
  refine ⟨hs, hp, wb, hwb, ?_⟩
  rw [htl, transcriptionStep_fail_link env it4 hw hfail]

/-- Collaborators where whisper is configured but transcription rejects
(fixture). -/
def envTransFail : Env :=
  ⟨some okConfig, [], Except.ok ⟨false⟩, fun _ => Except.ok "drive://x",
   fun _ => Except.ok "yt://x", true, [], Except.error "whisper crashed",
   true, fun _ => Except.ok "t://x", Except.ok ()⟩

/-- Witness for C7 at a concrete failing-transcription environment. -/
theorem claim_C7_transcription_best_effort_witness :
    (processItem envTransFail 9 (waitingJob 1)).1.status = Status.completed ∧
    ∃ wb, (processItem envTransFail 9 (waitingJob 1)).2.2 = some wb ∧
      wb.transcriptLink = none := by
  obtain ⟨h1, h2, wb, h3, h4⟩ :=
    claim_C7_transcription_best_effort envTransFail 9 (waitingJob 1)
      ⟨⟨okConfig, rfl, by decide⟩, ⟨⟨false⟩, rfl⟩, ⟨"drive://x", rfl⟩,
       ⟨"yt://x", rfl⟩, rfl⟩
      rfl (Or.inl ⟨"whisper crashed", rfl⟩)
  exact ⟨h1, wb, h3, h4⟩

/-! ## Single-flight and duplicate-guard claims -/

/-- C1 — Single-flight: in every reachable state of the queue manager at
most one job has status in {`compressing`, `uploading`}; while one job is
active, every other job is `waiting`, `completed` or `failed`. -/
theorem claim_C1_single_flight (s : Sys) (h : Reachable s) :
    ((s.queue.filter (fun j => isActive j.status)).length ≤ 1) ∧
    (∀ (i k : ℕ) (a b : Job), s.queue[i]? = some a → s.queue[k]? = some b →
      isActive a.status → k ≠ i →
      b.status = Status.waiting ∨ b.status = Status.completed ∨
        b.status = Status.failed) := by
  have hs := singleFlight_reachable s h
  constructor
  · apply filter_length_le_one
    intro i k a b hi hk pa pb
    have h1 := hs i a (by simpa [List.get?_eq_getElem?] using hi) pa
    have h2 := hs k b (by simpa [List.get?_eq_getElem?] using hk) pb
    rw [h1] at h2
    simp only [Ctl.working.injEq] at h2
    exact h2
  · intro i k a b hi hk pa hik
    by_cases hb : isActive b.status = true
    · have h1 := hs i a hi pa
      have h2 := hs k b hk hb
      rw [h1] at h2
      simp only [Ctl.working.injEq] at h2
      exact absurd h2.symm hik
    · cases hstat : b.status
      · exact Or.inl rfl
      · rw [hstat] at hb; simp [isActive] at hb
      · rw [hstat] at hb; simp [isActive] at hb
      · exact Or.inr (Or.inl rfl)
      · exact Or.inr (Or.inr rfl)

/-- Witness for C1 at the reachable state obtained by enqueueing one
waiting job from start-up. -/
theorem claim_C1_single_flight_witness :
    (((⟨[waitingJob 1], Ctl.idle⟩ : Sys).queue.filter
        (fun j => isActive j.status)).length ≤ 1) := by
  have hr : Reachable ⟨[waitingJob 1], Ctl.idle⟩ :=
    Relation.ReflTransGen.single (QStep.enqueue initSys (waitingJob 1) rfl)
  exact (claim_C1_single_flight ⟨[waitingJob 1], Ctl.idle⟩ hr).1

/-- C4 (amended) — Duplicate guard: `addVideo` fails fast, leaving the
queue untouched, when the record store reports no interview (404) or an
interview whose recording link is non-empty *after trimming whitespace*.
(The source guard is `link && link.trim() !== \'\'`: a whitespace-only
link passes it, which is the one correction to the claim as stated — see
the counterexample.) -/
theorem claim_C4_duplicate_guard (resp : ApiResponse) (filePath : String)
    (interviewId freshId now : ℕ) (st : QMState)
    (h : resp = ApiResponse.notFound ∨
         ∃ d l, resp = ApiResponse.ok d ∧ d.recording_link = some l ∧
           jsTrim l ≠ "") :
    (addVideo resp filePath interviewId freshId now st).2.success = false ∧
    (addVideo resp filePath interviewId freshId now st).2.error.isSome = true ∧
    (addVideo resp filePath interviewId freshId now st).1 = st := by
  rcases h with h | ⟨d, l, hresp, hlink, htrim⟩
  · subst h
    exact ⟨rfl, rfl, rfl⟩
  · subst hresp
    have hlne : l ≠ "" := fun he => htrim (by rw [he]; rfl)

    unfold addVideo getInterviewDetails
    try dsimp only
    have hcond : strTruthy d.recording_link = true ∧
        (jsTrim (d.recording_link.getD "") ≠ "") := by
      rw [hlink]
      exact ⟨by simp [strTruthy, hlne], by simpa using htrim⟩
    rw [if_pos hcond]
    exact ⟨rfl, rfl, rfl⟩

/-- Counterexample to C4 as stated: a recording link consisting of a
single space is a non-empty string, yet `addVideo` succeeds and grows the
queue, because the guard trims it to the empty string. -/
theorem claim_C4_duplicate_guard_counterexample :
    ((" " : String) ≠ "") ∧
    (addVideo (ApiResponse.ok ⟨1, none, some "Ann", none, "Co", "Tech",
        "2024-01-01", some " ", none⟩) "v.mp4" 1 0 0 ⟨[], false⟩).2.success
      = true ∧
    (addVideo (ApiResponse.ok ⟨1, none, some "Ann", none, "Co", "Tech",
        "2024-01-01", some " ", none⟩) "v.mp4" 1 0 0
        ⟨[], false⟩).1.queue.length = 1 := by
  refine ⟨by decide, ?_, ?_⟩ <;> rfl

/-- Witness for C4 (amended) at a genuinely non-blank recording link. -/
theorem claim_C4_duplicate_guard_witness :
    (addVideo (ApiResponse.ok ⟨1, none, some "Ann", none, "Co", "Tech",
        "2024-01-01", some "http://drive/x", none⟩) "v.mp4" 1 0 0
        ⟨[], false⟩).2.success = false ∧
    (addVideo (ApiResponse.ok ⟨1, none, some "Ann", none, "Co", "Tech",
        "2024-01-01", some "http://drive/x", none⟩) "v.mp4" 1 0 0
        ⟨[], false⟩).1 = ⟨[], false⟩ := by
  obtain ⟨h1, h2, h3⟩ :=
    claim_C4_duplicate_guard
      (ApiResponse.ok ⟨1, none, some "Ann", none, "Co", "Tech",
        "2024-01-01", some "http://drive/x", none⟩) "v.mp4" 1 0 0 ⟨[], false⟩
      (Or.inr ⟨_, "http://drive/x", rfl, rfl, by decide⟩)
  exact ⟨h1, h3⟩

/-! ## Progress values along a job's lifetime -/

theorem runCompressCallbacks_trace_progress (ps : List ℚ) (item : Job) :
    (∀ st ∈ (runCompressCallbacks ps item).2,
      ∃ p ∈ ps, st.progress = ((⌊p * 0.5⌋ : ℤ) : ℚ)) ∧
    ((runCompressCallbacks ps item).1.progress = item.progress ∨
      ∃ p ∈ ps, (runCompressCallbacks ps item).1.progress =
        ((⌊p * 0.5⌋ : ℤ) : ℚ)) := by
  induction ps generalizing item with
  | nil => exact ⟨by simp [runCompressCallbacks], Or.inl rfl⟩
  | cons p ps ih =>
    obtain ⟨ih1, ih2⟩ := ih (compressCallback item p)
    constructor
    · intro st hst
      simp only [runCompressCallbacks, List.mem_cons] at hst
      rcases hst with hst | hst
      · exact ⟨p, List.mem_cons_self p ps, by rw [hst]; rfl⟩
      · obtain ⟨p2, hp2, hv⟩ := ih1 st hst
        exact ⟨p2, List.mem_cons_of_mem p hp2, hv⟩
    · simp only [runCompressCallbacks]
      rcases ih2 with h | ⟨p2, hp2, hv⟩
      · exact Or.inr ⟨p, List.mem_cons_self p ps, h⟩
      · exact Or.inr ⟨p2, List.mem_cons_of_mem p hp2, hv⟩

theorem runTranscribeCallbacks_trace_progress (ps : List ℕ) (item : Job) :
    (∀ st ∈ (runTranscribeCallbacks ps item).2,
      ∃ p ∈ ps, st.progress = 80 + (p : ℚ) * 0.1) ∧
    ((runTranscribeCallbacks ps item).1.progress = item.progress ∨
      ∃ p ∈ ps, (runTranscribeCallbacks ps item).1.progress =
        80 + (p : ℚ) * 0.1) := by
  induction ps generalizing item with
  | nil => exact ⟨by simp [runTranscribeCallbacks], Or.inl rfl⟩
  | cons p ps ih =>
    obtain ⟨ih1, ih2⟩ := ih (transcribeCallback item p)
    constructor
    · intro st hst
      simp only [runTranscribeCallbacks, List.mem_cons] at hst
      rcases hst with hst | hst
      · exact ⟨p, List.mem_cons_self p ps, by rw [hst]; rfl⟩
      · obtain ⟨p2, hp2, hv⟩ := ih1 st hst
        exact ⟨p2, List.mem_cons_of_mem p hp2, hv⟩
    · simp only [runTranscribeCallbacks]
      rcases ih2 with h | ⟨p2, hp2, hv⟩
      · exact Or.inr ⟨p, List.mem_cons_self p ps, h⟩
      · exact Or.inr ⟨p2, List.mem_cons_of_mem p hp2, hv⟩

theorem transcriptionStep_trace_progress (env : Env) (item : Job) :
    (∀ st ∈ (transcriptionStep env item).2.1,
      (∃ p ∈ env.transcribeProgress, st.progress = 80 + (p : ℚ) * 0.1) ∨
        st.progress = 90) ∧
    ((transcriptionStep env item).1.progress = item.progress ∨
      (∃ p ∈ env.transcribeProgress,
        (transcriptionStep env item).1.progress = 80 + (p : ℚ) * 0.1) ∨
      (transcriptionStep env item).1.progress = 90) := by
  obtain ⟨hc1, hc2⟩ :=
    runTranscribeCallbacks_trace_progress env.transcribeProgress item
  unfold transcriptionStep
  by_cases hw : env.whisperConfigured
  · simp only [hw, if_pos]
    match hr : env.transcribeResult with
    | Except.error m =>
      try dsimp only
      refine ⟨fun st hst => Or.inl (hc1 st hst), ?_⟩
      rcases hc2 with h | h
      · exact Or.inl h
      · exact Or.inr (Or.inl h)
    | Except.ok u =>
      try dsimp only
      by_cases hex : env.transcriptExists
      · rw [if_neg (by simp [hex])]
        match hu : retryResult env.transcriptUpload with
        | Except.error m =>
          try dsimp only
          constructor
          · intro st hst
            simp only [List.mem_append, List.mem_singleton] at hst
            rcases hst with hst | hst
            · exact Or.inl (hc1 st hst)
            · subst hst; exact Or.inr rfl
          · exact Or.inr (Or.inr rfl)
        | Except.ok l =>
          try dsimp only
          constructor
          · intro st hst
            simp only [List.mem_append, List.mem_singleton] at hst
            rcases hst with hst | hst
            · exact Or.inl (hc1 st hst)
            · subst hst; exact Or.inr rfl
          · exact Or.inr (Or.inr rfl)
      · have heq : env.transcriptExists = false := by simpa using hex
        rw [if_pos (by simp [heq])]
        refine ⟨fun st hst => Or.inl (hc1 st hst), ?_⟩
        rcases hc2 with h | h
        · exact Or.inl h
        · exact Or.inr (Or.inl h)
  · have heq : env.whisperConfigured = false := by simpa using hw
    rw [if_neg (by simp [heq])]
    exact ⟨by simp, Or.inl rfl⟩

theorem processFinal_trace_progress (env : Env) (now : ℕ) (item : Job)
    (dl : String) (yl : Option String) :
    ∀ st ∈ (processFinal env now item dl yl).2.1,
      st.progress = 80 ∨
      (∃ p ∈ env.transcribeProgress, st.progress = 80 + (p : ℚ) * 0.1) ∨
      st.progress = 90 ∨ st.progress = 95 ∨ st.progress = 100 := by
  obtain ⟨ht1, ht2⟩ := transcriptionStep_trace_progress env
    { item with currentStep := "Transcribing audio...", progress := 80 }
  unfold processFinal
  try dsimp only
  match hu : env.updateLinks with
  | Except.error e =>
    try dsimp only
    intro st hst
    rw [List.mem_append] at hst
    rcases hst with hst | hst
    · rw [List.mem_append] at hst
      rcases hst with hst | hst
      · rw [List.mem_cons] at hst
        rcases hst with hst | hst
        · subst hst; exact Or.inl rfl
        · rcases ht1 st hst with h | h
          · exact Or.inr (Or.inl h)
          · exact Or.inr (Or.inr (Or.inl h))
      · rw [List.mem_singleton] at hst
        subst hst; exact Or.inr (Or.inr (Or.inr (Or.inl rfl)))
    · rw [List.mem_singleton] at hst
      subst hst; exact Or.inr (Or.inr (Or.inr (Or.inl rfl)))
  | Except.ok u =>
    try dsimp only
    intro st hst
    rw [List.mem_append] at hst
    rcases hst with hst | hst
    · rw [List.mem_append] at hst
      rcases hst with hst | hst
      · rw [List.mem_cons] at hst
        rcases hst with hst | hst
        · subst hst; exact Or.inl rfl
        · rcases ht1 st hst with h | h
          · exact Or.inr (Or.inl h)
          · exact Or.inr (Or.inr (Or.inl h))
      · rw [List.mem_singleton] at hst
        subst hst; exact Or.inr (Or.inr (Or.inr (Or.inl rfl)))
    · rw [List.mem_singleton] at hst
      subst hst; exact Or.inr (Or.inr (Or.inr (Or.inr rfl)))

/-- Every UI snapshot `processItem` emits carries one of the code's anchor
progress values, a floored compression-callback value, the incoming
job's own progress (updates before the first progress write), or an
unfloored transcription-callback value `80 + p * 0.1`. -/
theorem processItem_trace_progress (env : Env) (now : ℕ) (item : Job) :
    ∀ st ∈ (processItem env now item).2.1,
      st.progress = item.progress ∨
      (∃ p ∈ env.compressProgress, st.progress = ((⌊p * 0.5⌋ : ℤ) : ℚ)) ∨
      st.progress = 50 ∨ st.progress = 75 ∨ st.progress = 80 ∨
      (∃ p ∈ env.transcribeProgress, st.progress = 80 + (p : ℚ) * 0.1) ∨
      st.progress = 90 ∨ st.progress = 95 ∨ st.progress = 100 := by
  obtain ⟨hrc1, hrc2⟩ := runCompressCallbacks_trace_progress
    env.compressProgress
    { item with status := Status.compressing, currentStep := "Compressing video..." }
  have hmap : ∀ q : ℚ,
      (q = 80 ∨ (∃ p ∈ env.transcribeProgress, q = 80 + (p : ℚ) * 0.1) ∨
        q = 90 ∨ q = 95 ∨ q = 100) →
      (q = item.progress ∨
        (∃ p ∈ env.compressProgress, q = ((⌊p * 0.5⌋ : ℤ) : ℚ)) ∨
        q = 50 ∨ q = 75 ∨ q = 80 ∨
        (∃ p ∈ env.transcribeProgress, q = 80 + (p : ℚ) * 0.1) ∨
        q = 90 ∨ q = 95 ∨ q = 100) := by
    intro q hq
    rcases hq with h | h | h | h | h
    · exact Or.inr (Or.inr (Or.inr (Or.inr (Or.inl h))))
    · exact Or.inr (Or.inr (Or.inr (Or.inr (Or.inr (Or.inl h)))))
    · exact Or.inr (Or.inr (Or.inr (Or.inr (Or.inr (Or.inr (Or.inl h))))))
    · exact Or.inr (Or.inr (Or.inr (Or.inr (Or.inr (Or.inr (Or.inr (Or.inl h)))))))
    · exact Or.inr (Or.inr (Or.inr (Or.inr (Or.inr (Or.inr (Or.inr (Or.inr h)))))))
  unfold processItem
  match hc : env.config with
  | none =>
    try dsimp only
    intro st hst
    rw [List.mem_singleton] at hst
    subst hst
    exact Or.inl rfl
  | some cfg =>
    try dsimp only
    by_cases hs : cfg.compressedStorage = ""
    · rw [if_pos hs]
      intro st hst
      rw [List.mem_singleton] at hst
      subst hst
      exact Or.inl rfl
    · rw [if_neg hs]
      match hcr : env.compressResult with
      | Except.error e =>
        try dsimp only
        intro st hst
        rw [List.mem_append] at hst
        rcases hst with hst | hst
        · rw [List.mem_cons] at hst
          rcases hst with hst | hst
          · subst hst; exact Or.inl rfl
          · exact Or.inr (Or.inl (hrc1 st hst))
        · rw [List.mem_singleton] at hst
          subst hst
          rcases hrc2 with h | ⟨p, hp, hv⟩
          · exact Or.inl h
          · exact Or.inr (Or.inl ⟨p, hp, hv⟩)
      | Except.ok r0 =>
        try dsimp only
        match hdr : retryResult env.driveUpload with
        | Except.error e =>
          try dsimp only
          intro st hst
          rw [List.mem_append] at hst
          rcases hst with hst | hst
          · rw [List.mem_append] at hst
            rcases hst with hst | hst
            · rw [List.mem_cons] at hst
              rcases hst with hst | hst
              · subst hst; exact Or.inl rfl
              · exact Or.inr (Or.inl (hrc1 st hst))
            · rw [List.mem_singleton] at hst
              subst hst
              exact Or.inr (Or.inr (Or.inl rfl))
          · rw [List.mem_singleton] at hst
            subst hst
            exact Or.inr (Or.inr (Or.inl rfl))
        | Except.ok dl =>
          try dsimp only
          split
          · intro st hst
            rw [List.mem_append] at hst
            rcases hst with hst | hst
            · rw [List.mem_append] at hst
              rcases hst with hst | hst
              · rw [List.mem_cons] at hst
                rcases hst with hst | hst
                · subst hst; exact Or.inl rfl
                · exact Or.inr (Or.inl (hrc1 st hst))
              · rw [List.mem_singleton] at hst
                subst hst
                exact Or.inr (Or.inr (Or.inl rfl))
            · rw [List.mem_cons] at hst
              rcases hst with hst | hst
              · subst hst
                exact Or.inr (Or.inr (Or.inr (Or.inl rfl)))
              · exact hmap st.progress
                  (processFinal_trace_progress env now _ dl none st hst)
          · match hyr : retryResult env.youtubeUpload with
            | Except.error e =>
              try dsimp only
              intro st hst
              rw [List.mem_append] at hst
              rcases hst with hst | hst
              · rw [List.mem_append] at hst
                rcases hst with hst | hst
                · rw [List.mem_append] at hst
                  rcases hst with hst | hst
                  · rw [List.mem_cons] at hst
                    rcases hst with hst | hst
                    · subst hst; exact Or.inl rfl
                    · exact Or.inr (Or.inl (hrc1 st hst))
                  · rw [List.mem_singleton] at hst
                    subst hst
                    exact Or.inr (Or.inr (Or.inl rfl))
                · rw [List.mem_singleton] at hst
                  subst hst
                  exact Or.inr (Or.inr (Or.inr (Or.inl rfl)))
              · rw [List.mem_singleton] at hst
                subst hst
                exact Or.inr (Or.inr (Or.inr (Or.inl rfl)))
            | Except.ok yt =>
              try dsimp only
              intro st hst
              rw [List.mem_append] at hst
              rcases hst with hst | hst
              · rw [List.mem_append] at hst
                rcases hst with hst | hst
                · rw [List.mem_append] at hst
                  rcases hst with hst | hst
                  · rw [List.mem_cons] at hst
                    rcases hst with hst | hst
                    · subst hst; exact Or.inl rfl
                    · exact Or.inr (Or.inl (hrc1 st hst))
                  · rw [List.mem_singleton] at hst
                    subst hst
                    exact Or.inr (Or.inr (Or.inl rfl))
                · rw [List.mem_singleton] at hst
                  subst hst
                  exact Or.inr (Or.inr (Or.inr (Or.inl rfl)))
              · exact hmap st.progress
                  (processFinal_trace_progress env now _ dl (some yt) st hst)

theorem runTranscribeCallbacks_mem (ps : List ℕ) (item : Job) (p : ℕ)
    (hp : p ∈ ps) :
    ∃ st ∈ (runTranscribeCallbacks ps item).2,
      st.progress = 80 + (p : ℚ) * 0.1 := by
  induction ps generalizing item with
  | nil => simp at hp
  | cons q qs ih =>
    rcases List.mem_cons.mp hp with h | h
    · subst h
      exact ⟨transcribeCallback item p, by simp [runTranscribeCallbacks], rfl⟩
    · obtain ⟨st, hmem, hv⟩ := ih (transcribeCallback item q) h
      refine ⟨st, ?_, hv⟩
      simp only [runTranscribeCallbacks, List.mem_cons]
      exact Or.inr hmem

theorem transcriptionStep_mem (env : Env) (item : Job) (p : ℕ)
    (hw : env.whisperConfigured = true) (hp : p ∈ env.transcribeProgress) :
    ∃ st ∈ (transcriptionStep env item).2.1,
      st.progress = 80 + (p : ℚ) * 0.1 := by
  obtain ⟨st, hmem, hv⟩ :=
    runTranscribeCallbacks_mem env.transcribeProgress item p hp
  unfold transcriptionStep
  simp only [hw, if_pos]
  match hr : env.transcribeResult with
  | Except.error m => exact ⟨st, hmem, hv⟩
  | Except.ok u =>
    by_cases hex : env.transcriptExists
    · rw [if_neg (by simp [hex])]
      match hu : retryResult env.transcriptUpload with
      | Except.error m => exact ⟨st, List.mem_append_left _ hmem, hv⟩
      | Except.ok l => exact ⟨st, List.mem_append_left _ hmem, hv⟩
    · have heq : env.transcriptExists = false := by simpa using hex
      rw [if_pos (by simp [heq])]
      exact ⟨st, hmem, hv⟩

theorem processFinal_mem_transcribe (env : Env) (now : ℕ) (item : Job)
    (dl : String) (yl : Option String) (p : ℕ)
    (hw : env.whisperConfigured = true) (hp : p ∈ env.transcribeProgress) :
    ∃ st ∈ (processFinal env now item dl yl).2.1,
      st.progress = 80 + (p : ℚ) * 0.1 := by
  obtain ⟨st, hmem, hv⟩ := transcriptionStep_mem env
    { item with currentStep := "Transcribing audio...", progress := 80 }
    p hw hp
  unfold processFinal
  try dsimp only
  match hu : env.updateLinks with
  | Except.error e =>
    exact ⟨st, List.mem_append_left _ (List.mem_append_left _
      (List.mem_cons_of_mem _ hmem)), hv⟩
  | Except.ok u =>
    exact ⟨st, List.mem_append_left _ (List.mem_append_left _
      (List.mem_cons_of_mem _ hmem)), hv⟩

theorem processItem_mem_transcribe (env : Env) (now : ℕ) (item : Job)
    (p : ℕ) (hok : EnvOk env) (hw : env.whisperConfigured = true)
    (hp : p ∈ env.transcribeProgress) :
    ∃ st ∈ (processItem env now item).2.1,
      st.progress = 80 + (p : ℚ) * 0.1 := by
  obtain ⟨⟨c, hc, hcs⟩, ⟨r0, hr⟩, ⟨sd, hd⟩, ⟨sy, hy⟩, hu⟩ := hok
  unfold processItem
  simp only [hc]
  try dsimp only
  rw [if_neg hcs]
  simp only [hr]
  try dsimp only
  simp only [retryResult_ok env.driveUpload sd hd]
  try dsimp only
  split
  · obtain ⟨st, hmem, hv⟩ :=
      processFinal_mem_transcribe env now _ sd none p hw hp
    exact ⟨st, List.mem_append_right _ (List.mem_cons_of_mem _ hmem), hv⟩
  · simp only [retryResult_ok env.youtubeUpload sy hy]
    try dsimp only
    obtain ⟨st, hmem, hv⟩ :=
      processFinal_mem_transcribe env now _ sd (some sy) p hw hp
    exact ⟨st, List.mem_append_right _ hmem, hv⟩

/-- C9 (amended) — Progress stays within 0–100 (given collaborator
progress reports in 0–100), and every update writes an integer *except*
the transcription callback, which writes the unfloored `80 + p * 0.1`;
a freshly enqueued job starts at progress 0. -/
theorem claim_C9_progress_range (env : Env) (now : ℕ) (item : Job)
    (hitem : item.progress = 0)
    (hcp : ∀ p ∈ env.compressProgress, 0 ≤ p ∧ p ≤ 100)
    (htp : ∀ p ∈ env.transcribeProgress, p ≤ 100) :
    (∀ st ∈ (processItem env now item).2.1,
        0 ≤ st.progress ∧ st.progress ≤ 100 ∧
        ((∃ n : ℤ, st.progress = (n : ℚ)) ∨
         ∃ p ∈ env.transcribeProgress,
           st.progress = 80 + (p : ℚ) * 0.1)) ∧
    (∀ det fp iid fid t, (mkQueueItem det fp iid fid t).progress = 0) := by
  refine ⟨?_, fun det fp iid fid t => rfl⟩
  intro st hst
  rcases processItem_trace_progress env now item st hst with
    h | ⟨p, hp, hv⟩ | h | h | h | ⟨p, hp, hv⟩ | h | h | h
  · rw [h, hitem]
    exact ⟨le_refl 0, by norm_num, Or.inl ⟨0, by norm_num⟩⟩
  · obtain ⟨hp0, hp100⟩ := hcp p hp
    have h05 : (0.5 : ℚ) = 1 / 2 := by norm_num
    have hnn : (0 : ℚ) ≤ p * 0.5 := by rw [h05]; linarith
    have hup : p * 0.5 ≤ 50 := by rw [h05]; linarith
    have hfl : ((⌊p * 0.5⌋ : ℤ) : ℚ) ≤ p * 0.5 := Int.floor_le _
    have hfg : (0 : ℚ) ≤ ((⌊p * 0.5⌋ : ℤ) : ℚ) := by
      exact_mod_cast Int.floor_nonneg.mpr hnn
    rw [hv]
    exact ⟨hfg, by linarith, Or.inl ⟨⌊p * 0.5⌋, rfl⟩⟩
  · rw [h]; exact ⟨by norm_num, by norm_num, Or.inl ⟨50, by norm_num⟩⟩
  · rw [h]; exact ⟨by norm_num, by norm_num, Or.inl ⟨75, by norm_num⟩⟩
  · rw [h]; exact ⟨by norm_num, by norm_num, Or.inl ⟨80, by norm_num⟩⟩
  · have hpc : (p : ℚ) ≤ 100 := by exact_mod_cast htp p hp
    have hp0 : (0 : ℚ) ≤ (p : ℚ) := by positivity
    have h01 : (0.1 : ℚ) = 1 / 10 := by norm_num
    rw [hv]
    refine ⟨by rw [h01]; linarith, by rw [h01]; linarith,
      Or.inr ⟨p, hp, rfl⟩⟩
  · rw [h]; exact ⟨by norm_num, by norm_num, Or.inl ⟨90, by norm_num⟩⟩
  · rw [h]; exact ⟨by norm_num, by norm_num, Or.inl ⟨95, by norm_num⟩⟩
  · rw [h]; exact ⟨by norm_num, by norm_num, Or.inl ⟨100, by norm_num⟩⟩

/-- Witness for C9 (amended): a freshly built queue item has progress 0,
via the theorem applied to always-succeeding collaborators. -/
theorem claim_C9_progress_range_witness :
    (mkQueueItem ⟨1, "Ann", "Co", "Tech", "2024-01-01", none, none⟩
      "v.mp4" 1 0 0).progress = 0 :=
  (claim_C9_progress_range envAllOk 0 (waitingJob 1) rfl
    (by simp [envAllOk]) (by simp [envAllOk])).2
    ⟨1, "Ann", "Co", "Tech", "2024-01-01", none, none⟩ "v.mp4" 1 0 0

/-- Counterexample to C9 as stated: with whisper configured and the
transcription collaborator reporting progress 55, the transcription
callback (queue_manager.js line 240) sets `progress = 80 + 55 * 0.1 =
85.5`, which is not an integer. -/
theorem claim_C9_progress_integer_counterexample :
    ∃ st ∈ (processItem (⟨some okConfig, [], Except.ok ⟨false⟩,
        fun _ => Except.ok "d", fun _ => Except.ok "y", true, [55],
        Except.ok (), true, fun _ => Except.ok "t", Except.ok ()⟩ : Env) 0
        (waitingJob 1)).2.1,
      ¬ ∃ n : ℤ, st.progress = (n : ℚ) := by
  obtain ⟨st, hmem, hv⟩ := processItem_mem_transcribe
    (⟨some okConfig, [], Except.ok ⟨false⟩,
      fun _ => Except.ok "d", fun _ => Except.ok "y", true, [55],
      Except.ok (), true, fun _ => Except.ok "t", Except.ok ()⟩ : Env) 0
    (waitingJob 1) 55
    ⟨⟨okConfig, rfl, by decide⟩, ⟨⟨false⟩, rfl⟩, ⟨"d", rfl⟩, ⟨"y", rfl⟩, rfl⟩
    rfl (by simp)
  refine ⟨st, hmem, ?_⟩
  rw [hv]
  have h : (80 + ((55 : ℕ) : ℚ) * 0.1) = 171 / 2 := by norm_num
  rw [h]
  rintro ⟨n, hn⟩
  have hd := Rat.den_intCast n
  rw [← hn] at hd
  norm_num at hd

end Uploader
